import Mathlib

/-!
Verification model of the OpenStreetMap data-wrangling pipeline
(`Wrangle_OpenStreetMap/WrangleOpenStreetMapData.py`).

Strings are modelled as `List Char` (Python 2 `str`, ASCII semantics for the
regex character classes, since the patterns are compiled without `re.UNICODE`).
Python exceptions (`KeyError` from `mapping[street_return]`, `ValueError` from
`float(...)`, `TypeError` from item-assignment on a non-container) are modelled
by `Option`/`Except Unit` failure values.
-/

namespace OSM

/-- Convert a Lean string literal to the `List Char` representation used
throughout the model. -/
def str (s : String) : List Char := s.data

/-- Python 2 `\s` for `str` patterns: space, tab, newline, carriage return,
vertical tab, form feed. -/
def isPySpace (c : Char) : Bool :=
  c == ' ' || c == '\t' || c == '\n' || c == '\r' || c == '\x0b' || c == '\x0c'

/-- Python 2 `\w` for `str` patterns without `re.UNICODE`: `[a-zA-Z0-9_]`.
Word-boundary `\b` positions are exactly the transitions of this class. -/
def isPyWord (c : Char) : Bool :=
  ('a' ≤ c && c ≤ 'z') || ('A' ≤ c && c ≤ 'Z') || ('0' ≤ c && c ≤ '9') || c == '_'

/-- Negation of `isPySpace`, i.e. the `\S` class. -/
def nonSpace (c : Char) : Bool := !isPySpace c

/-- Negation of `isPyWord`. -/
def nonWord (c : Char) : Bool := !isPyWord c

/-- The character class of `lower = re.compile(r'^([a-z]|_)*$')`:
one lowercase letter or underscore. -/
def lowerChar (c : Char) : Bool := ('a' ≤ c && c ≤ 'z') || c == '_'

/-- The disallowed characters of
`problemchars = re.compile(r'[=\+/&<>;\'"\?%#$@\,\. \t\r\n]')`. -/
def problemCharList : List Char :=
  ['=', '+', '/', '&', '<', '>', ';', '\'', '"', '?', '%', '#', '$', '@',
   ',', '.', ' ', '\t', '\r', '\n']

/-- One character of the `problemchars` class. -/
def isProblem (c : Char) : Bool := problemCharList.contains c

/-- `problemchars.search(k)` succeeds: some character of `k` is in the
problem-character class (the pattern is a bare character class, unanchored). -/
def hasProblem (k : List Char) : Bool := k.any isProblem

/-- Strip the single trailing newline that Python's `$` (without
`re.MULTILINE`) may sit in front of: `$` matches at the end of the string or
just before one string-final newline.  Returns the remaining string and
whether a newline was stripped.  Every `$`-anchored pattern of the source
(`lower`, `lower_colon`, `street_type_re`) goes through this. -/
def stripNL (s : List Char) : List Char × Bool :=
  match s.reverse with
  | c :: rest => if c = '\n' then (rest.reverse, true) else (s, false)
  | [] => (s, false)

/-- `lower.search(k)` succeeds: the pattern `^([a-z]|_)*$` is anchored on both
sides, so search success means every character up to the `$` position — the
end of the string, or just before one string-final newline — is lowercase or
underscore.  In particular `lower.search("abc\n")` succeeds. -/
def matchLower (k : List Char) : Bool := (stripNL k).1.all lowerChar

/-- `lower_colon.search(k)` succeeds: `^([a-z]|_)*:([a-z]|_)*$` means that up
to the `$` position — end of string or just before one string-final newline —
the key consists of lowercase/underscore characters plus exactly one colon. -/
def matchLowerColon (k : List Char) : Bool :=
  ((stripNL k).1.count ':' == 1) &&
    (stripNL k).1.all (fun c => lowerChar c || c == ':')

/-- The four key-shape categories of the tag classifier. -/
inductive KeyCat where
  | lower
  | lower_colon
  | problemchars
  | other
deriving DecidableEq, Repr

/-- The classification logic of `key_type` (source lines 49-61): a tag key is
tested against `lower`, then `lower_colon`, then `problemchars`, and otherwise
falls into `other`.  (The Python function wraps this decision in a counter
update over a stream of elements; the decision itself is modelled here.) -/
def key_type (k : List Char) : KeyCat :=
  if matchLower k then .lower
  else if matchLowerColon k then .lower_colon
  else if hasProblem k then .problemchars
  else .other

/-! ### The trailing-token pattern `street_type_re = r'\b\S+\.?$'`

`re.search` returns the leftmost match.  A match of `\b\S+\.?$` starting at
position `i` requires a word boundary at `i` and all characters from `i` to
the anchor to be non-whitespace (both `\S` and `\.` are non-whitespace), and
the greedy `\S+` then captures everything up to the anchor.  Python's `$`
(without `re.MULTILINE`) matches at the end of the string or just before one
final newline.  Consequently, after stripping at most one trailing `'\n'`:

* matches can only start inside the maximal all-non-whitespace suffix `t`
  (any earlier start would put a whitespace character inside `\S+`);
* the first word boundary inside `t` is at its first `\w` character: `t` is
  preceded by whitespace or the string start (both non-`\w`), so position 0 of
  `t` is a boundary iff `t` starts with a `\w` character, and walking right
  from a non-`\w` prefix the first class transition is non-`\w` to `\w`.

So the leftmost match is `t.dropWhile nonWord` (when nonempty), and the text
before the match is everything else.  `re.IGNORECASE` does not affect `\b`,
`\S` or `\.`. -/

/-- Split a string into (everything before, maximal all-non-whitespace suffix). -/
def trailingSplit (s : List Char) : List Char × List Char :=
  ((s.reverse.dropWhile nonSpace).reverse, (s.reverse.takeWhile nonSpace).reverse)

/-- Leftmost match of `\b\S+\.?$` in a string already stripped of its trailing
newline: `some (before, matched)` or `none`.  The match is the maximal
non-whitespace suffix shorn of its leading non-word characters. -/
def stMatchSplit (s : List Char) : Option (List Char × List Char) :=
  if ((trailingSplit s).2.dropWhile nonWord).isEmpty then none
  else some ((trailingSplit s).1 ++ (trailingSplit s).2.takeWhile nonWord,
             (trailingSplit s).2.dropWhile nonWord)

/-- `street_type_re.search(s)` — the matched text, if any. -/
def stSearch (s : List Char) : Option (List Char) :=
  (stMatchSplit (stripNL s).1).map Prod.snd

/-- `re.sub(street_type_re, rep, s)`: the single possible match (it reaches the
`$` anchor, so no second non-overlapping match exists) is replaced by `rep`;
a stripped trailing newline lies after the match end and is kept. -/
def stSub (rep : List Char) (s : List Char) : List Char :=
  match stripNL s with
  | (s1, nl) =>
    match stMatchSplit s1 with
    | none => s
    | some (p, _) => p ++ rep ++ (if nl then ['\n'] else [])

/-! ### The leading-token pattern `street_direction_re = r'^[NSEW]\b\.?'`
with `re.IGNORECASE`: a match needs the first character in `[NSEWnsew]`, a word
boundary after it (the next character, if any, must be non-`\w`), then an
optional greedy `'.'`. -/

/-- `[NSEW]` under `re.IGNORECASE`. -/
def dirLetter (c : Char) : Bool :=
  c == 'N' || c == 'S' || c == 'E' || c == 'W' ||
  c == 'n' || c == 's' || c == 'e' || c == 'w'

/-- `street_direction_re.search(s)` — the matched text, if any (the pattern is
anchored at the start). -/
def dirSearch (s : List Char) : Option (List Char) :=
  match s with
  | [] => none
  | c :: rest =>
    if dirLetter c then
      match rest with
      | [] => some [c]
      | d :: _ =>
        if isPyWord d then none
        else if d = '.' then some [c, '.']
        else some [c]
    else none

/-- `re.sub(street_direction_re, rep, s)`: the `^` anchor admits at most one
match, at position 0. -/
def dirSub (rep : List Char) (s : List Char) : List Char :=
  match dirSearch s with
  | none => s
  | some g => rep ++ s.drop g.length

/-- The two regular expressions `update_name` is invoked with. -/
inductive ReKind where
  | stype
  | sdir
deriving DecidableEq, Repr

/-- `re_string.search` for the two patterns. -/
def reSearch : ReKind → List Char → Option (List Char)
  | .stype, s => stSearch s
  | .sdir, s => dirSearch s

/-- `re.sub(re_string, rep, s)` for the two patterns. -/
def reSub : ReKind → List Char → List Char → List Char
  | .stype, rep, s => stSub rep s
  | .sdir, rep, s => dirSub rep s

/-- First-match lookup in an association list (Python `dict` indexing and the
mapping tables, whose keys are distinct). -/
def dlookup {α : Type} : List (List Char × α) → List Char → Option α
  | [], _ => none
  | (k', v) :: rest, k => if k' = k then some v else dlookup rest k

/-- Python `dict` assignment `m[k] = v` on an association-list model: replace
the value in place if the key exists, else append the new binding. -/
def dinsert {α : Type} : List (List Char × α) → List Char → α → List (List Char × α)
  | [], k, v => [(k, v)]
  | (k', v') :: rest, k, v =>
    if k' = k then (k, v) :: rest else (k', v') :: dinsert rest k v

/-! ### Rule tables (source lines 157-167, 182-204, 237, 249-258, 351) -/

/-- `expected_names` after the author's curation pass (source lines 157-162). -/
def expected_names : List (List Char) :=
  [str "Street", str "Avenue", str "Boulevard", str "Drive", str "Court",
   str "Place", str "Square", str "Lane", str "Road", str "Trail",
   str "Parkway", str "Commons", str "Circle", str "Expressway", str "Highway",
   str "Loop", str "Real", str "Row", str "Terrace", str "Walk", str "Way",
   str "Plaza", str "0.1", str "7.1", str "Hamilton", str "Alameda",
   str "Auzoa", str "Barcelona", str "East", str "Franklin", str "Franklin",
   str "Hill", str "Luna", str "Madrid", str "Marino", str "Napoli",
   str "Ogrodowa", str "Oro", str "Palamos", str "Paviso", str "Portofino",
   str "Presada", str "Seville", str "Sorrento", str "Volante", str "West",
   str "Winchester", str "robles"]

/-- `not_to_import_list` (source lines 166-167). -/
def not_to_import_list : List (List Char) :=
  [str "Brunnenweg", str "Bäderstraße", str "Cergowska", str "Jana Pawła II",
   str "Klosterstraße", str "Marii Konopnickiej", str "Słowacka"]

/-- `mapping_street_type` (source lines 182-204). -/
def mapping_street_type : List (List Char × List Char) :=
  [(str "Ave", str "Avenue"), (str "ave", str "Avenue"),
   (str "Bascom", str "Bascom Avenue"), (str "Bellomy", str "Bellomy Street"),
   (str "BLVD", str "Boulevard"), (str "Blvd", str "Boulevard"),
   (str "Blvd.", str "Boulevard"), (str "Cir", str "Circle"),
   (str "Ct", str "Court"), (str "Dr", str "Drive"),
   (str "Hill", str "Hill Road"), (str "Hwy", str "Highway"),
   (str "Julian", str "Julian Street"), (str "Ln", str "Lane"),
   (str "Pkwy", str "Parkway"), (str "robles", str "Robles"),
   (str "Rd", str "Road"), (str "Rd.", str "Road"),
   (str "Sq", str "Square"), (str "St", str "Street"),
   (str "St.", str "Street"), (str "street", str "Street")]

/-- `expected_directions` (source line 237). -/
def expected_directions : List (List Char) :=
  [str "North", str "South", str "West", str "East"]

/-- `mapping_street_direction` (source lines 249-258). -/
def mapping_street_direction : List (List Char × List Char) :=
  [(str "E", str "East"), (str "E.", str "East"),
   (str "N", str "North"), (str "N.", str "North"),
   (str "S", str "South"), (str "S.", str "South"),
   (str "W", str "West"), (str "W.", str "West")]

/-- `CREATED` (source line 351). -/
def CREATED : List (List Char) :=
  [str "version", str "changeset", str "timestamp", str "user", str "uid"]

/-- `update_name` (source lines 208-215).  When the pattern matches and the
matched token is not in `expected`, the code evaluates
`mapping[street_return]`, which raises `KeyError` when the token is not a key
of the mapping; the exception is modelled by `none`. -/
def update_name (name : List Char) (mapping : List (List Char × List Char))
    (r : ReKind) (expected : List (List Char)) : Option (List Char) :=
  match reSearch r name with
  | none => some name
  | some g =>
    if g ∈ expected then some name
    else
      match dlookup mapping g with
      | none => none
      | some rep => some (reSub r rep name)

/-! ### Postal code extraction (source lines 296-300)

`update_zip_code` checks `re.search('[0-9]{5}', zip_in)` and, on success,
returns `re.findall('[0-9]{5}', zip_in)` — a Python *list* of all
non-overlapping five-digit runs — and otherwise the empty *string* `""`.
JSON-ish output values are modelled by `JVal` below, so here the result type
distinguishes the two shapes. -/

/-- Does a five-digit run start right here? (`[0-9]{5}` match attempt at the
current position.) -/
def startsRun5 : List Char → Bool
  | a :: b :: c :: d :: e :: _ =>
    a.isDigit && b.isDigit && c.isDigit && d.isDigit && e.isDigit
  | _ => false

/-- `re.search('[0-9]{5}', s)` succeeds: the string contains five consecutive
digits. -/
def hasRun5 : List Char → Bool
  | [] => false
  | c :: rest => startsRun5 (c :: rest) || hasRun5 rest

/-- `re.findall('[0-9]{5}', s)`: scan left to right; at each position take a
five-digit run if one starts there and resume after it, else advance one
character. -/
def findall5 : List Char → List (List Char)
  | a :: b :: c :: d :: e :: rest' =>
    if a.isDigit && b.isDigit && c.isDigit && d.isDigit && e.isDigit then
      [a, b, c, d, e] :: findall5 rest'
    else findall5 (b :: c :: d :: e :: rest')
  | _ => []

/-! ### Output documents

The values appearing in a shaped document: strings, parsed `lat`/`lon`
numbers, Python `None`, the two-slot `pos` list, the `node_refs` list of
strings, the list returned by `re.findall`, and nested dictionaries.  The
numeric carrier `F` abstracts Python's `float(...)`: the pipeline only parses
and stores the numbers, so every statement is made for an arbitrary parse
function `List Char → Option F` (`none` modelling `ValueError`). -/

inductive JVal (F : Type) where
  | s (v : List Char)
  | f (v : F)
  | null
  | pair (a b : JVal F)
  | arr (vs : List (List Char))
  | obj (fields : List (List Char × JVal F))

/-- A shaped document: a Python dict from strings to values. -/
abbrev Doc (F : Type) := List (List Char × JVal F)

/-- `update_zip_code` (source lines 296-300): the list of five-digit runs when
one exists, else the empty string. -/
def update_zip_code {F : Type} (zip_in : List Char) : JVal F :=
  if hasRun5 zip_in then .arr (findall5 zip_in) else .s []

/-- A nested `tag` child: its `k` and `v` attributes. -/
structure Tag where
  k : List Char
  v : List Char

/-- A source element as the streaming parser presents it: tag name, attribute
mapping (in iteration order), nested `tag` children and the `ref` attributes
of nested `nd` children, in document order. -/
structure XElem where
  tag : List Char
  attrib : List (List Char × List Char)
  tags : List Tag
  nds : List (List Char)

/-- State while iterating the nested tags of one element: the document under
construction (`node`) and the separate `address` dictionary. -/
structure TState (F : Type) where
  node : Doc F
  addr : Doc F

/-- One iteration of the attribute loop of `shape_element` (source lines
361-374).  `float(...)` failure on a `lat`/`lon` value, and Python
`TypeError`s from item-assignment on a value that is not the expected
container, are `Except.error ()`. -/
def attrStep {F : Type} (parse : List Char → Option F) (node : Doc F)
    (a : List Char × List Char) : Except Unit (Doc F) :=
  if a.1 ∈ CREATED then
    match dlookup node (str "created") with
    | none => .ok (dinsert node (str "created") (.obj [(a.1, .s a.2)]))
    | some (.obj m) => .ok (dinsert node (str "created") (.obj (dinsert m a.1 (.s a.2))))
    | some _ => .error ()
  else if a.1 = str "lat" ∨ a.1 = str "lon" then
    match
      (match dlookup node (str "pos") with
       | none => some (JVal.null, JVal.null)
       | some (.pair x y) => some (x, y)
       | some _ => none) with
    | none => .error ()
    | some (x, y) =>
      match parse a.2 with
      | none => .error ()
      | some v =>
        .ok (dinsert node (str "pos")
          (if a.1 = str "lat" then .pair (.f v) y else .pair x (.f v)))
  else .ok (dinsert node a.1 (.s a.2))

/-- The portion after the first colon: `k.split(':', 1)[1]` for a key that
contains a colon (the only situation in which the code reads it). -/
def afterColon : List Char → List Char
  | [] => []
  | c :: rest => if c = ':' then rest else afterColon rest

/-- The `addr:street` sub-branch of the tag loop (source lines 386-408): the
deny-list screen, the four literal whole-value overrides, and otherwise the
two normalization passes.  `sub_attr[1]` is the literal `"street"` here.  The
`update_name` calls can raise `KeyError`. -/
def streetNewAddr {F : Type} (v : List Char) (addr : Doc F) : Except Unit (Doc F) :=
  if v ∈ not_to_import_list then .ok addr
  else if v = str "Stewart Drive Suite #1" then
    .ok (dinsert (dinsert addr (str "street") (.s (str "Stewart Drive")))
      (str "unit") (.s (str "Suite #1")))
  else if v = str "West Evelyn Avenue Suite #114" then
    .ok (dinsert (dinsert addr (str "street") (.s (str "West Evelyn Avenue")))
      (str "unit") (.s (str "Suite #114")))
  else if v = str "Zanker Rd., San Jose, CA" ∨ v = str "Zanker Road, San Jose, CA" then
    .ok (dinsert (dinsert (dinsert addr (str "street") (.s (str "Zanker Road")))
      (str "city") (.s (str "San Jose"))) (str "state") (.s (str "CA")))
  else if v = str "1425 E Dunne Ave" then
    .ok (dinsert (dinsert addr (str "street") (.s (str "East Dunne Avenue")))
      (str "housenumber") (.s (str "1425")))
  else
    match update_name v mapping_street_type .stype expected_names with
    | none => .error ()
    | some n1 =>
      match update_name n1 mapping_street_direction .sdir expected_directions with
      | none => .error ()
      | some n2 => .ok (dinsert addr (str "street") (.s n2))

/-- The effect of an addr-prefixed `lower_colon` tag on the `address` dict
(source lines 385-417): street tags via `streetNewAddr`, postal-code tags via
`update_zip_code` (stored unconditionally), any other sub-key verbatim. -/
def addrTagValue {F : Type} (t : Tag) (addr : Doc F) : Except Unit (Doc F) :=
  if t.k = str "addr:street" then streetNewAddr t.v addr
  else if t.k = str "addr:postcode" then
    .ok (dinsert addr (afterColon t.k) (update_zip_code t.v))
  else .ok (dinsert addr (afterColon t.k) (.s t.v))

/-- The per-iteration `if address: node['address'] = address` of source lines
426-427.  `node['address']` aliases the growing `address` dict in Python; in
this value-semantics model the snapshot is rewritten at the end of every
iteration that reaches this line, which yields the same final document. -/
def attachAddr {F : Type} (st : TState F) : TState F :=
  { node :=
      if st.addr.isEmpty then st.node
      else dinsert st.node (str "address") (.obj st.addr),
    addr := st.addr }

/-- One iteration of the tag loop of `shape_element` (source lines 376-427).

Notes kept faithful to the Python:
* `tag.attrib['k'].find('addr') == 0` is a *prefix* test, not an exact
  namespace comparison;
* line 382-383 assigns a fresh empty dict to `node['address']` the first time
  an addr-prefixed key is seen, independent of the separate `address` dict;
* the street branch can raise `KeyError` through `update_name`. -/
def tagStep {F : Type} (st : TState F) (t : Tag) : Except Unit (TState F) := do
  if hasProblem t.k then
    pure st
  else
    let st1 ←
      if matchLowerColon t.k then
        if (str "addr").isPrefixOf t.k then
          let node1 :=
            match dlookup st.node (str "address") with
            | none => dinsert st.node (str "address") (.obj [])
            | some _ => st.node
          do
            let addr' ← addrTagValue t st.addr
            pure { node := node1, addr := addr' }
        else
          pure { node := dinsert st.node t.k (.s t.v), addr := st.addr }
      else if t.k.contains ':' then
        pure st
      else
        pure { node := dinsert st.node t.k (.s t.v), addr := st.addr }
    pure (attachAddr st1)

/-- One iteration of the `nd` loop of `shape_element` (source lines 429-432). -/
def ndStep {F : Type} (node : Doc F) (r : List Char) : Except Unit (Doc F) :=
  match dlookup node (str "node_refs") with
  | none => .ok (dinsert node (str "node_refs") (.arr [r]))
  | some (.arr l) => .ok (dinsert node (str "node_refs") (.arr (l ++ [r])))
  | some _ => .error ()

/-- `shape_element` (source lines 353-438): `Except.ok none` is Python's
`return None` for elements that are neither `node` nor `way`; `Except.error`
is an uncaught exception escaping the call. -/
def shape_element {F : Type} (parse : List Char → Option F) (e : XElem) :
    Except Unit (Option (Doc F)) := do
  if e.tag = str "node" ∨ e.tag = str "way" then
    let node1 ← e.attrib.foldlM (attrStep parse) [(str "type", JVal.s e.tag)]
    let st ← e.tags.foldlM tagStep { node := node1, addr := [] }
    let node3 ← e.nds.foldlM ndStep st.node
    pure (some node3)
  else
    pure none

/-- One iteration of the `process_map` loop (source lines 445-452): shape the
element; `if el:` keeps exactly the non-`None`, non-empty results. -/
def pmStep {F : Type} (parse : List Char → Option F) (data : List (Doc F)) (e : XElem) :
    Except Unit (List (Doc F)) := do
  match (← shape_element parse e) with
  | some el => pure (if el.isEmpty then data else data ++ [el])
  | none => pure data

/-- `process_map` (source lines 440-453), with the element stream and the JSON
sink abstracted away.  An exception from `shape_element` is uncaught and
aborts the whole pass. -/
def process_map {F : Type} (parse : List Char → Option F) (elems : List XElem) :
    Except Unit (List (Doc F)) :=
  elems.foldlM (pmStep parse) []

/-- A concrete numeric parser used to instantiate the abstract `float(...)`
parameter in witnesses and counterexamples: nonempty all-digit strings parse
to their decimal value, everything else fails. -/
def decParse (s : List Char) : Option Nat :=
  if !s.isEmpty && s.all Char.isDigit then
    some (s.foldl (fun a c => a * 10 + (c.toNat - 48)) 0)
  else none

/-! ### Concrete elements used in counterexamples and witnesses -/

/-- Node carrying only a `lat` attribute. -/
def elemLatOnly : XElem := ⟨str "node", [(str "lat", str "37")], [], []⟩

/-- Node carrying both coordinates and nothing else. -/
def elemLatLon : XElem :=
  ⟨str "node", [(str "lat", str "37"), (str "lon", str "121")], [], []⟩

/-- Node whose only tag is a deny-listed street value. -/
def elemDenied : XElem := ⟨str "node", [], [⟨str "addr:street", str "Brunnenweg"⟩], []⟩

/-- Node whose only tag key merely begins with the letters `addr`. -/
def elemBook : XElem := ⟨str "node", [], [⟨str "addressbook:x", str "y"⟩], []⟩

/-- Node whose only tag key is colon-free but `other`-classified. -/
def elemOther : XElem := ⟨str "node", [], [⟨str "Name", str "x"⟩], []⟩

/-- Node with an unparseable `lat` attribute. -/
def elemBadLat : XElem := ⟨str "node", [(str "lat", str "abc")], [], []⟩

/-- A well-formed way element, shaped successfully on its own. -/
def elemGoodWay : XElem := ⟨str "way", [(str "id", str "7")], [], [str "10", str "20"]⟩

/-- Node carrying an attribute literally named `type`. -/
def elemTypeAttr : XElem := ⟨str "node", [(str "type", str "garbage")], [], []⟩

/-- Node carrying a colon-free nested tag with key `type`. -/
def elemTypeTag : XElem := ⟨str "node", [], [⟨str "type", str "bogus"⟩], []⟩

/-- Node whose only tag is a postal code with the given value. -/
def elemPostcode (v : List Char) : XElem :=
  ⟨str "node", [], [⟨str "addr:postcode", v⟩], []⟩

/-! ### Association-list lemmas -/

theorem dlookup_dinsert_self {α : Type} (m : List (List Char × α)) (k : List Char) (v : α) :
    dlookup (dinsert m k v) k = some v := by
  induction m with
  | nil => simp [dinsert, dlookup]
  | cons p rest ih =>
    by_cases h : p.1 = k
    · simp [dinsert, dlookup, h]
    · simp only [dinsert, dlookup, h, if_false, if_neg h]
      exact ih

theorem dlookup_dinsert_ne {α : Type} (m : List (List Char × α)) (k k' : List Char) (v : α)
    (h : k' ≠ k) : dlookup (dinsert m k v) k' = dlookup m k' := by
  induction m with
  | nil =>
    simp only [dinsert, dlookup]
    rw [if_neg (fun hh => h hh.symm)]
  | cons p rest ih =>
    by_cases hp : p.1 = k
    · simp only [dinsert, if_pos hp, dlookup]
      rw [if_neg (fun hh => h hh.symm), if_neg (fun hh : p.1 = k' => h (hp ▸ hh).symm)]
    · simp only [dinsert, if_neg hp, dlookup]
      by_cases hp' : p.1 = k'
      · rw [if_pos hp', if_pos hp']
      · rw [if_neg hp', if_neg hp']
        exact ih

theorem dlookup_mem {α : Type} {m : List (List Char × α)} {k : List Char} {v : α}
    (h : dlookup m k = some v) : (k, v) ∈ m := by
  induction m with
  | nil => simp [dlookup] at h
  | cons p rest ih =>
    by_cases hp : p.1 = k
    · simp only [dlookup, if_pos hp] at h
      have hv : p.2 = v := Option.some.inj h
      have hpk : p = (k, v) := by
        cases p
        simp only at hp hv
        rw [hp, hv]
      exact hpk ▸ List.mem_cons_self _ _
    · simp only [dlookup, if_neg hp] at h
      exact List.mem_cons_of_mem _ (ih h)

/-! ## C10 — the `type` field is unprotected against key collisions.

A node attribute named `type` (lines 361, 373-374) and a colon-free nested
tag with key `type` (lines 422-423) are written into the same flat dict after
`node['type'] = element.tag`, overwriting it. -/

/-- C10: shaping a node that carries an attribute named `type`, or a
colon-free nested tag with key `type`, yields a document whose `type` field is
the attribute's/tag's value (`"garbage"` resp. `"bogus"`) instead of the
element's tag name `"node"`. -/
theorem c10_type_field_collision :
    shape_element decParse elemTypeAttr = .ok (some [(str "type", JVal.s (str "garbage"))]) ∧
    shape_element decParse elemTypeTag = .ok (some [(str "type", JVal.s (str "bogus"))]) ∧
    str "garbage" ≠ str "node" ∧ str "bogus" ≠ str "node" := by
  refine ⟨rfl, rfl, by decide, by decide⟩

/-! ## C1 — `update_name` on a trailing token that is neither expected nor
mapped.

The claim says the string passes through unchanged without failing; the code
evaluates `mapping[street_return]` in that situation (line 213), which raises
`KeyError`. -/

/-- C1 counterexample: the street string `"Foo Qqq"` has trailing token
`"Qqq"`, which is neither in `expected_names` nor a key of
`mapping_street_type`, yet `update_name` fails (raises `KeyError`, modelled by
`none`) instead of returning the string unchanged. -/
theorem c1_counterexample :
    stSearch (str "Foo Qqq") = some (str "Qqq") ∧
    str "Qqq" ∉ expected_names ∧
    dlookup mapping_street_type (str "Qqq") = none ∧
    update_name (str "Foo Qqq") mapping_street_type .stype expected_names = none := by
  refine ⟨rfl, by decide, by decide, rfl⟩

/-- C1 (amended): for every name whose matched token is neither in the
expected set nor a key of the mapping, `update_name` raises `KeyError`
(returns failure) rather than returning the string unchanged. -/
theorem c1_update_name_unmapped_token_fails (r : ReKind) (name g : List Char)
    (mapping : List (List Char × List Char)) (expected : List (List Char))
    (hs : reSearch r name = some g) (hg : g ∉ expected)
    (hm : dlookup mapping g = none) :
    update_name name mapping r expected = none := by
  unfold update_name
  rw [hs]
  simp only [if_neg hg, hm]

/-- C1 witness: the amended theorem applied at the concrete input
`"Foo Qqq"` with the street-type tables. -/
theorem c1_witness :
    update_name (str "Foo Qqq") mapping_street_type .stype expected_names = none :=
  c1_update_name_unmapped_token_fails .stype (str "Foo Qqq") (str "Qqq")
    mapping_street_type expected_names rfl (by decide) (by decide)

/-! ## C3 — postal-code extraction.

`update_zip_code` returns `re.findall(...)` — a Python *list* — on success,
not the bare string; and `shape_element` (line 413) stores the extraction
result unconditionally, so a valueless postal tag stores the empty string
under `postcode` instead of omitting the key. -/

/-- C3 counterexample: extraction applied to `"CA 95014-1234"` returns the
one-element list `["95014"]`, not the string `"95014"`. -/
theorem c3_counterexample :
    (update_zip_code (str "CA 95014-1234") : JVal Nat) = .arr [str "95014"] ∧
    (update_zip_code (str "CA 95014-1234") : JVal Nat) ≠ .s (str "95014") :=
  ⟨rfl, fun h => JVal.noConfusion h⟩

/-- C3 (amended): extraction of `"CA 95014-1234"` yields the list of
five-digit runs `["95014"]`; a value with no five-digit run extracts to the
empty string; and the shaped document then contains `postcode` mapped to that
empty string (the key is stored, not omitted). -/
theorem c3_zip_extraction_amended :
    (update_zip_code (str "CA 95014-1234") : JVal Nat) = .arr [str "95014"] ∧
    (∀ (F : Type) (z : List Char), hasRun5 z = false →
      (update_zip_code z : JVal F) = .s []) ∧
    (∀ v : List Char, hasRun5 v = false →
      shape_element decParse (elemPostcode v) =
        .ok (some [(str "type", JVal.s (str "node")),
                   (str "address", JVal.obj [(str "postcode", JVal.s [])])])) := by
  refine ⟨rfl, ?_, ?_⟩
  · intro F z hz
    simp [update_zip_code, hz]
  · intro v hv
    have hz : (update_zip_code v : JVal Nat) = .s [] := by
      simp [update_zip_code, hv]
    have hstep : shape_element decParse (elemPostcode v) =
        .ok (some [(str "type", JVal.s (str "node")),
                   (str "address", JVal.obj [(str "postcode",
                     (update_zip_code v : JVal Nat))])]) := rfl
    rw [hstep, hz]

/-- C3 witness: the amended theorem applied at the run-free value `"abc"`. -/
theorem c3_witness :
    (update_zip_code (str "abc") : JVal Nat) = .s [] ∧
    shape_element decParse (elemPostcode (str "abc")) =
      .ok (some [(str "type", JVal.s (str "node")),
                 (str "address", JVal.obj [(str "postcode", JVal.s [])])]) :=
  ⟨c3_zip_extraction_amended.2.1 Nat (str "abc") (by decide),
   c3_zip_extraction_amended.2.2 (str "abc") (by decide)⟩

/-! ## C5 — failure semantics of a malformed `lat`/`lon`.

`process_map` (lines 440-453) has no exception handling: the `ValueError`
raised inside `shape_element` by `float(...)` propagates out of the loop, so
the first malformed element aborts the entire pass; nothing is reported
per-element and later elements are never shaped. -/

/-- C5 counterexample: a stream holding a node with unparseable `lat` followed
by a perfectly good way aborts with an error and emits no documents at all,
although the good element on its own shapes fine — the failure is not confined
to the single element. -/
theorem c5_counterexample :
    process_map decParse [elemBadLat, elemGoodWay] = .error () ∧
    shape_element decParse elemBadLat = .error () ∧
    shape_element decParse elemGoodWay =
      .ok (some [(str "type", JVal.s (str "way")), (str "id", JVal.s (str "7")),
                 (str "node_refs", JVal.arr [str "10", str "20"])]) :=
  ⟨rfl, rfl, rfl⟩

/-- C5 (amended): an element whose shaping raises (e.g. a non-parseable
`lat`/`lon`) makes the whole `process_map` pass abort with that error, wherever
the element sits in the stream; there is no per-element recovery. -/
theorem c5_malformed_element_aborts_pass {F : Type} (parse : List Char → Option F)
    (pre post : List XElem) (e : XElem)
    (h : shape_element parse e = .error ()) :
    process_map parse (pre ++ e :: post) = .error () := by
  show List.foldlM (pmStep parse) [] (pre ++ e :: post) = .error ()
  have aux : ∀ (pre' : List XElem) (acc : List (Doc F)),
      List.foldlM (pmStep parse) acc (pre' ++ e :: post) = .error () := by
    intro pre'
    induction pre' with
    | nil =>
      intro acc
      show (pmStep parse acc e >>= fun b => List.foldlM (pmStep parse) b post) = .error ()
      have hstep : pmStep parse acc e = .error () := by
        unfold pmStep
        rw [h]
        rfl
      rw [hstep]
      rfl
    | cons a pre'' ih =>
      intro acc
      show (pmStep parse acc a >>= fun b =>
        List.foldlM (pmStep parse) b (pre'' ++ e :: post)) = .error ()
      cases hpa : pmStep parse acc a with
      | error u => rfl
      | ok acc' => exact ih acc'
  exact aux pre []

/-- C5 witness: the amended theorem applied to the concrete two-element
stream. -/
theorem c5_witness : process_map decParse [elemBadLat, elemGoodWay] = .error () :=
  c5_malformed_element_aborts_pass decParse [] [elemGoodWay] elemBadLat rfl

/-! ## C6 — problem-character keys in the classifier and the shaper.

The shaping half of the claim is exact: line 377's screen is the unanchored
`problemchars` search, which has no newline exception, so shaping never uses
a field derived from a problem-character tag.  The classifier half has an
exception the claim misses: `lower` and `lower_colon` are `$`-anchored, and
Python's `$` (without `re.MULTILINE`) also matches just before one
string-final newline, so `lower.search("abc\n")` succeeds and `key_type`
files the key `"abc\n"` — which contains the disallowed `'\n'` — under
`lower`, not `problemchars`. -/

theorem isProblem_not_lowerChar {c : Char} (h : isProblem c = true) :
    lowerChar c = false := by
  have hm : c ∈ problemCharList := List.mem_of_elem_eq_true h
  fin_cases hm <;> rfl

theorem isProblem_not_lowerColonChar {c : Char} (h : isProblem c = true) :
    (lowerChar c || c == ':') = false := by
  have hm : c ∈ problemCharList := List.mem_of_elem_eq_true h
  fin_cases hm <;> rfl

/-- An element with its problem-character tags removed. -/
def filterTags (e : XElem) : XElem :=
  { e with tags := e.tags.filter (fun t => !hasProblem t.k) }

theorem tagStep_problem {F : Type} (st : TState F) (t : Tag)
    (h : hasProblem t.k = true) : tagStep st t = pure st := by
  unfold tagStep
  rw [if_pos h]

theorem tagfold_filter {F : Type} (ts : List Tag) (st : TState F) :
    List.foldlM tagStep st (ts.filter (fun t => !hasProblem t.k)) =
      List.foldlM tagStep st ts := by
  induction ts generalizing st with
  | nil => rfl
  | cons t ts ih =>
    by_cases h : hasProblem t.k
    · rw [List.filter_cons, if_neg (by simp [h]), ih st]
      show List.foldlM tagStep st ts =
        (tagStep st t >>= fun b => List.foldlM tagStep b ts)
      rw [tagStep_problem st t h]
      rfl
    · rw [List.filter_cons, if_pos (by simp [h])]
      show (tagStep st t >>= fun b =>
              List.foldlM tagStep b (ts.filter (fun t => !hasProblem t.k))) =
           (tagStep st t >>= fun b => List.foldlM tagStep b ts)
      cases hst : tagStep st t with
      | error u => rfl
      | ok st' => exact ih st'

theorem lowerChar_not_problem {c : Char} (h : lowerChar c = true) :
    isProblem c = false := by
  cases hp : isProblem c
  · rfl
  · rw [isProblem_not_lowerChar hp] at h
    cases h

theorem lowerColonChar_not_problem {c : Char} (h : (lowerChar c || c == ':') = true) :
    isProblem c = false := by
  cases hp : isProblem c
  · rfl
  · rw [isProblem_not_lowerColonChar hp] at h
    cases h

theorem stripNL_cases (k : List Char) :
    stripNL k = (k, false) ∨ k = (stripNL k).1 ++ ['\n'] := by
  cases hr : k.reverse with
  | nil =>
    left
    unfold stripNL
    rw [hr]
  | cons c rest =>
    by_cases hc : c = '\n'
    · right
      have h1 : stripNL k = (rest.reverse, true) := by
        unfold stripNL
        rw [hr]
        show (if c = '\n' then (rest.reverse, true) else (k, false)) = (rest.reverse, true)
        rw [if_pos hc]
      rw [h1]
      show k = rest.reverse ++ ['\n']
      have hk : k = (c :: rest).reverse := by
        rw [← hr, List.reverse_reverse]
      rw [hk, List.reverse_cons, hc]
    · left
      unfold stripNL
      rw [hr]
      show (if c = '\n' then (rest.reverse, true) else (k, false)) = (k, false)
      rw [if_neg hc]

/-- C6 counterexample: the key `"abc\n"` contains the disallowed newline
character, yet the classifier files it under `lower`, not `problemchars` —
the `$` of the anchored `lower` pattern matches just before the string-final
newline. -/
theorem c6_counterexample :
    hasProblem (str "abc\n") = true ∧ key_type (str "abc\n") = .lower :=
  ⟨by decide, by decide⟩

/-- C6 (amended): a key containing a disallowed character is classified
`problemchars` *unless* its only disallowed character is a single trailing
newline with everything before it of `lower`/`lower_colon` shape (then it is
classified `lower` resp. `lower_colon`); and, independently, the Element
Shaper never includes a field derived from a problem-character tag: shaping
is unchanged by deleting all such tags, since line 377's screen is the
unanchored `problemchars` search, which has no newline exception. -/
theorem c6_problemchars_amended :
    (∀ k : List Char, hasProblem k = true →
      key_type k = .problemchars ∨
      (k = (stripNL k).1 ++ ['\n'] ∧ hasProblem ((stripNL k).1) = false ∧
        (key_type k = .lower ∨ key_type k = .lower_colon))) ∧
    (∀ (F : Type) (parse : List Char → Option F) (e : XElem),
      shape_element parse e = shape_element parse (filterTags e)) := by
  constructor
  · intro k hk
    by_cases h1 : matchLower k = true
    · have hkt : key_type k = .lower := by
        unfold key_type
        rw [if_pos h1]
      have hall : (stripNL k).1.all lowerChar = true := h1
      rcases stripNL_cases k with hcase | hceq
      · exfalso
        have hfst : (stripNL k).1 = k := by
          rw [hcase]
        rw [hfst] at hall
        obtain ⟨c, hc, hpc⟩ := List.any_eq_true.mp hk
        have hlc := List.all_eq_true.mp hall c hc
        rw [isProblem_not_lowerChar hpc] at hlc
        cases hlc
      · refine Or.inr ⟨hceq, ?_, Or.inl hkt⟩
        show ((stripNL k).1).any isProblem = false
        cases hp : ((stripNL k).1).any isProblem
        · rfl
        · exfalso
          obtain ⟨c, hc, hpc⟩ := List.any_eq_true.mp hp
          have hlc := List.all_eq_true.mp hall c hc
          rw [isProblem_not_lowerChar hpc] at hlc
          cases hlc
    · by_cases h2 : matchLowerColon k = true
      · have hkt : key_type k = .lower_colon := by
          unfold key_type
          rw [if_neg h1, if_pos h2]
        have hall : (stripNL k).1.all (fun c => lowerChar c || c == ':') = true :=
          ((Bool.and_eq_true _ _).mp h2).2
        rcases stripNL_cases k with hcase | hceq
        · exfalso
          have hfst : (stripNL k).1 = k := by
            rw [hcase]
          rw [hfst] at hall
          obtain ⟨c, hc, hpc⟩ := List.any_eq_true.mp hk
          have hlc := List.all_eq_true.mp hall c hc
          rw [isProblem_not_lowerColonChar hpc] at hlc
          cases hlc
        · refine Or.inr ⟨hceq, ?_, Or.inr hkt⟩
          show ((stripNL k).1).any isProblem = false
          cases hp : ((stripNL k).1).any isProblem
          · rfl
          · exfalso
            obtain ⟨c, hc, hpc⟩ := List.any_eq_true.mp hp
            have hlc := List.all_eq_true.mp hall c hc
            rw [isProblem_not_lowerColonChar hpc] at hlc
            cases hlc
      · left
        unfold key_type
        rw [if_neg h1, if_neg h2, if_pos hk]
  · intro F parse e
    unfold shape_element filterTags
    by_cases he : e.tag = str "node" ∨ e.tag = str "way"
    · rw [if_pos he, if_pos he]
      cases h1 : e.attrib.foldlM (attrStep parse) [(str "type", JVal.s e.tag)] with
      | error u => rfl
      | ok node1 =>
        show (List.foldlM tagStep ⟨node1, []⟩ e.tags >>= _) =
             (List.foldlM tagStep ⟨node1, []⟩ (e.tags.filter (fun t => !hasProblem t.k)) >>= _)
        rw [tagfold_filter]
    · rw [if_neg he, if_neg he]

/-- C6 witness: the amended classifier conclusion at the key `"a b"` (the
left disjunct holds: a mid-string space cannot be excused by the newline
exception) and the shaping conclusion at a concrete element. -/
theorem c6_witness :
    (key_type (str "a b") = .problemchars ∨
      (str "a b" = (stripNL (str "a b")).1 ++ ['\n'] ∧
        hasProblem ((stripNL (str "a b")).1) = false ∧
        (key_type (str "a b") = .lower ∨ key_type (str "a b") = .lower_colon))) ∧
    shape_element decParse elemGoodWay = shape_element decParse (filterTags elemGoodWay) :=
  ⟨c6_problemchars_amended.1 (str "a b") (by decide),
   c6_problemchars_amended.2 Nat decParse elemGoodWay⟩

/-! ## C8 — `other`-classified keys in the shaper.

The shaper does not consult the classifier: after the problem-character
screen it tests `lower_colon` and then merely `k.find(':') == -1`
(lines 422-423).  An `other`-classified key that is colon-free (uppercase or
digits, no disallowed characters) is therefore *stored* top-level under its
raw key, not dropped; `other` keys are dropped only when they contain a
colon. -/

theorem key_type_other_elim {k : List Char} (h : key_type k = .other) :
    matchLowerColon k = false ∧ hasProblem k = false := by
  unfold key_type at h
  by_cases h1 : matchLower k = true
  · rw [if_pos h1] at h
    cases h
  · rw [if_neg h1] at h
    by_cases h2 : matchLowerColon k = true
    · rw [if_pos h2] at h
      cases h
    · rw [if_neg h2] at h
      by_cases h3 : hasProblem k = true
      · rw [if_pos h3] at h
        cases h
      · exact ⟨Bool.eq_false_iff.mpr h2, Bool.eq_false_iff.mpr h3⟩

/-- C8 counterexample: the key `"Name"` is classified `other`, yet shaping a
node with that single tag *adds* the top-level field `Name` — the tag is not
dropped. -/
theorem c8_counterexample :
    key_type (str "Name") = .other ∧
    shape_element decParse elemOther =
      .ok (some [(str "type", JVal.s (str "node")), (str "Name", JVal.s (str "x"))]) :=
  ⟨by decide, rfl⟩

/-- C8 (amended): a tag whose key is `other`-classified never raises; it is
dropped exactly when its key contains a colon, and a colon-free `other` key
is stored top-level under the raw key (the states below also show the
per-iteration re-attachment of the `address` snapshot, which adds no field
derived from this tag). -/
theorem c8_other_key_routing {F : Type} (st : TState F) (t : Tag)
    (h : key_type t.k = .other) :
    (t.k.contains ':' = true → tagStep st t = pure (attachAddr st)) ∧
    (t.k.contains ':' = false →
      tagStep st t =
        pure (attachAddr { node := dinsert st.node t.k (.s t.v), addr := st.addr })) := by
  obtain ⟨h2, h3⟩ := key_type_other_elim h
  constructor
  · intro hc
    unfold tagStep
    rw [if_neg (by simp [h3]), if_neg (by simp [h2]), if_pos hc]
    rfl
  · intro hc
    unfold tagStep
    rw [if_neg (by simp [h3]), if_neg (by simp [h2]),
      if_neg (show ¬(t.k.contains ':' = true) by rw [hc]; exact Bool.false_ne_true)]
    rfl

/-- C8 witness: the amended theorem applied at concrete tags `"A:B"` (an
`other` key with a colon, dropped) and `"Name"` (colon-free, stored). -/
theorem c8_witness :
    tagStep (F := Nat) ⟨[], []⟩ ⟨str "A:B", str "v"⟩ = pure ⟨[], []⟩ ∧
    tagStep (F := Nat) ⟨[], []⟩ ⟨str "Name", str "x"⟩ =
      pure ⟨[(str "Name", JVal.s (str "x"))], []⟩ :=
  ⟨(c8_other_key_routing ⟨[], []⟩ ⟨str "A:B", str "v"⟩ (by decide)).1 (by decide),
   (c8_other_key_routing ⟨[], []⟩ ⟨str "Name", str "x"⟩ (by decide)).2 (by decide)⟩

/-! ## C7 — routing of `lower_colon` tags.

Line 381 tests `tag.attrib['k'].find('addr') == 0`, a *prefix* test: every
`lower_colon` key beginning with the four letters `addr` — not only those
whose namespace is exactly `addr` — is routed into the `address`
sub-document under the portion of the key after the colon. -/

theorem matchLowerColon_ne_address {k : List Char} (h : matchLowerColon k = true) :
    k ≠ str "address" := by
  intro hk
  subst hk
  exact absurd h (by decide)

/-- C7 counterexample: the `lower_colon` key `"addressbook:x"` has namespace
`addressbook`, not `addr`, yet its tag lands in the `address` sub-document
under sub-key `x` and is *not* stored as a top-level field under the raw
key. -/
theorem c7_counterexample :
    shape_element decParse elemBook =
      .ok (some [(str "type", JVal.s (str "node")),
                 (str "address", JVal.obj [(str "x", JVal.s (str "y"))])]) ∧
    dlookup [(str "type", (JVal.s (str "node") : JVal Nat)),
             (str "address", JVal.obj [(str "x", JVal.s (str "y"))])]
      (str "addressbook:x") = none :=
  ⟨rfl, rfl⟩

/-- C7 (amended): a non-problem `lower_colon` tag is routed by the *prefix*
test `k.find('addr') == 0`: when the key does not begin with `addr` it is
stored top-level under the raw key and the `address` dict is untouched; when
it begins with `addr` (whatever its full namespace) the top-level fields other
than `address` are untouched and — for keys other than the street/postcode
special cases — the value is stored in the `address` dict under the portion of
the key after the colon. -/
theorem c7_lower_colon_routing {F : Type} (st st' : TState F) (t : Tag)
    (hp : hasProblem t.k = false) (hlc : matchLowerColon t.k = true)
    (hok : tagStep st t = .ok st') :
    ((str "addr").isPrefixOf t.k = false →
       st'.addr = st.addr ∧
       dlookup st'.node t.k = some (.s t.v) ∧
       (∀ k2, k2 ≠ t.k → k2 ≠ str "address" →
          dlookup st'.node k2 = dlookup st.node k2)) ∧
    ((str "addr").isPrefixOf t.k = true →
       (∀ k2, k2 ≠ str "address" → dlookup st'.node k2 = dlookup st.node k2) ∧
       (t.k ≠ str "addr:street" → t.k ≠ str "addr:postcode" →
          st'.addr = dinsert st.addr (afterColon t.k) (.s t.v))) := by
  have hta : t.k ≠ str "address" := matchLowerColon_ne_address hlc
  constructor
  · intro hpre
    unfold tagStep at hok
    rw [if_neg (by simp [hp]), if_pos hlc, if_neg (by simp [hpre])] at hok
    have hst' : st' = attachAddr { node := dinsert st.node t.k (.s t.v), addr := st.addr } :=
      (Except.ok.inj hok).symm
    subst hst'
    refine ⟨rfl, ?_, ?_⟩
    · show dlookup (attachAddr _).node t.k = some (.s t.v)
      unfold attachAddr
      by_cases hae : st.addr.isEmpty
      · rw [if_pos hae]
        exact dlookup_dinsert_self _ _ _
      · rw [if_neg hae, dlookup_dinsert_ne _ _ _ _ hta]
        exact dlookup_dinsert_self _ _ _
    · intro k2 hk2t hk2a
      show dlookup (attachAddr _).node k2 = dlookup st.node k2
      unfold attachAddr
      by_cases hae : st.addr.isEmpty
      · rw [if_pos hae]
        exact dlookup_dinsert_ne _ _ _ _ hk2t
      · rw [if_neg hae, dlookup_dinsert_ne _ _ _ _ hk2a]
        exact dlookup_dinsert_ne _ _ _ _ hk2t
  · intro hpre
    unfold tagStep at hok
    rw [if_neg (by simp [hp]), if_pos hlc, if_pos hpre] at hok
    cases hav : addrTagValue t st.addr with
    | error u =>
      rw [hav] at hok
      cases hok
    | ok addr' =>
      rw [hav] at hok
      have hst' : st' = attachAddr
          { node := match dlookup st.node (str "address") with
                    | none => dinsert st.node (str "address") (.obj [])
                    | some _ => st.node,
            addr := addr' } :=
        (Except.ok.inj hok).symm
      subst hst'
      constructor
      · intro k2 hk2a
        show dlookup (attachAddr _).node k2 = dlookup st.node k2
        unfold attachAddr
        have hnode1 : dlookup
            (match dlookup st.node (str "address") with
             | none => dinsert st.node (str "address") ((JVal.obj []: JVal F))
             | some _ => st.node) k2 = dlookup st.node k2 := by
          cases hda : dlookup st.node (str "address") with
          | none => exact dlookup_dinsert_ne _ _ _ _ hk2a
          | some w => rfl
        by_cases hae : addr'.isEmpty
        · simp only [if_pos hae]
          exact hnode1
        · simp only [if_neg hae]
          rw [dlookup_dinsert_ne _ _ _ _ hk2a]
          exact hnode1
      · intro hks hkp
        unfold addrTagValue at hav
        rw [if_neg hks, if_neg hkp] at hav
        have : dinsert st.addr (afterColon t.k) (JVal.s t.v) = addr' := Except.ok.inj hav
        show addr' = dinsert st.addr (afterColon t.k) (.s t.v)
        exact this.symm

/-- The tag-loop state produced by processing the single tag
`addressbook:x = y` from the empty state. -/
def st7 : TState Nat :=
  ⟨[(str "address", JVal.obj [(str "x", JVal.s (str "y"))])],
   [(str "x", JVal.s (str "y"))]⟩

/-- C7 witness: the amended theorem applied at the concrete tag
`addressbook:x = y` on the empty state. -/
theorem c7_witness :
    dlookup st7.node (str "zzz") = dlookup ([] : Doc Nat) (str "zzz") ∧
    st7.addr = dinsert ([] : Doc Nat) (afterColon (str "addressbook:x")) (JVal.s (str "y")) :=
  ⟨((c7_lower_colon_routing ⟨[], []⟩ st7 ⟨str "addressbook:x", str "y"⟩
      (by decide) (by decide) rfl).2 (by decide)).1 (str "zzz") (by decide),
   ((c7_lower_colon_routing ⟨[], []⟩ st7 ⟨str "addressbook:x", str "y"⟩
      (by decide) (by decide) rfl).2 (by decide)).2 (by decide) (by decide)⟩

/-! ## C4 — presence of the `address` field.

Line 382-383 assigns `node['address'] = {}` — a fresh empty dict, distinct
from the `address` variable — as soon as an addr-prefixed `lower_colon` key is
seen, *before* the deny-list screen; the later `if address:` re-assignment
(lines 426-427) cannot remove it.  So the `address` field is present iff such
a tag exists, even if nothing ever contributed a sub-field, in which case it
is the empty sub-document. -/

/-- A tag that reaches the addr-prefixed branch of the tag loop. -/
def addrQual (t : Tag) : Bool :=
  !hasProblem t.k && matchLowerColon t.k && (str "addr").isPrefixOf t.k

theorem attrStep_preserves {F : Type} (parse : List Char → Option F)
    (node node1 : Doc F) (a : List Char × List Char) (k : List Char)
    (hk1 : k ≠ str "created") (hk2 : k ≠ str "pos") (hk3 : k ≠ a.1)
    (hs : attrStep parse node a = .ok node1) :
    dlookup node1 k = dlookup node k := by
  unfold attrStep at hs
  by_cases hc : a.1 ∈ CREATED
  · rw [if_pos hc] at hs
    cases hd : dlookup node (str "created") with
    | none =>
      rw [hd] at hs
      cases Except.ok.inj hs
      exact dlookup_dinsert_ne _ _ _ _ hk1
    | some w =>
      rw [hd] at hs
      cases w with
      | obj m =>
        cases Except.ok.inj hs
        exact dlookup_dinsert_ne _ _ _ _ hk1
      | s v => cases hs
      | f v => cases hs
      | null => cases hs
      | pair x y => cases hs
      | arr vs => cases hs
  · rw [if_neg hc] at hs
    by_cases hll : a.1 = str "lat" ∨ a.1 = str "lon"
    · rw [if_pos hll] at hs
      have hred : ∀ (x y : JVal F),
          (match parse a.2 with
           | none => (Except.error () : Except Unit (Doc F))
           | some v => .ok (dinsert node (str "pos")
               (if a.1 = str "lat" then .pair (.f v) y else .pair x (.f v)))) = .ok node1 →
          dlookup node1 k = dlookup node k := by
        intro x y hx
        cases hv : parse a.2 with
        | none =>
          rw [hv] at hx
          cases hx
        | some v =>
          rw [hv] at hx
          cases Except.ok.inj hx
          exact dlookup_dinsert_ne _ _ _ _ hk2
      cases hp : dlookup node (str "pos") with
      | none =>
        rw [hp] at hs
        exact hred _ _ hs
      | some w =>
        rw [hp] at hs
        cases w with
        | pair x y => exact hred _ _ hs
        | s v => cases hs
        | f v => cases hs
        | null => cases hs
        | arr vs => cases hs
        | obj m => cases hs
    · rw [if_neg hll] at hs
      cases Except.ok.inj hs
      exact dlookup_dinsert_ne _ _ _ _ hk3

theorem attrfold_preserves {F : Type} (parse : List Char → Option F) (k : List Char)
    (hk1 : k ≠ str "created") (hk2 : k ≠ str "pos") :
    ∀ (attrs : List (List Char × List Char)) (node node' : Doc F),
      List.foldlM (attrStep parse) node attrs = .ok node' →
      (∀ a ∈ attrs, k ≠ a.1) →
      dlookup node' k = dlookup node k := by
  intro attrs
  induction attrs with
  | nil =>
    intro node node' h _
    cases Except.ok.inj h
    rfl
  | cons a attrs ih =>
    intro node node' h ha
    have hbind : (attrStep parse node a >>= fun b =>
        List.foldlM (attrStep parse) b attrs) = .ok node' := h
    cases hs : attrStep parse node a with
    | error u =>
      rw [hs] at hbind
      cases hbind
    | ok node1 =>
      rw [hs] at hbind
      have h1 := ih node1 node' hbind (fun x hx => ha x (List.mem_cons_of_mem _ hx))
      rw [h1,
        attrStep_preserves parse node node1 a k hk1 hk2 (ha a (List.mem_cons_self _ _)) hs]

theorem ndfold_preserves {F : Type} (k : List Char) (hk : k ≠ str "node_refs") :
    ∀ (nds : List (List Char)) (node node' : Doc F),
      List.foldlM ndStep node nds = .ok node' →
      dlookup node' k = dlookup node k := by
  intro nds
  induction nds with
  | nil =>
    intro node node' h
    cases Except.ok.inj h
    rfl
  | cons r nds ih =>
    intro node node' h
    have hbind : (ndStep node r >>= fun b => List.foldlM ndStep b nds) = .ok node' := h
    cases hs : ndStep node r with
    | error u =>
      rw [hs] at hbind
      cases hbind
    | ok node1 =>
      rw [hs] at hbind
      have h1 := ih node1 node' hbind
      rw [h1]
      unfold ndStep at hs
      cases hd : dlookup node (str "node_refs") with
      | none =>
        rw [hd] at hs
        cases Except.ok.inj hs
        exact dlookup_dinsert_ne _ _ _ _ hk
      | some w =>
        rw [hd] at hs
        cases w with
        | arr l =>
          cases Except.ok.inj hs
          exact dlookup_dinsert_ne _ _ _ _ hk
        | s v => cases hs
        | f v => cases hs
        | null => cases hs
        | pair x y => cases hs
        | obj m => cases hs

theorem attach_presence {F : Type} (st1 : TState F) :
    (dlookup (attachAddr st1).node (str "address")).isSome =
      ((dlookup st1.node (str "address")).isSome || !st1.addr.isEmpty) := by
  unfold attachAddr
  cases hae : st1.addr.isEmpty with
  | true =>
    rw [Bool.not_true, Bool.or_false]
    rfl
  | false =>
    rw [Bool.not_false, Bool.or_true]
    simp [dlookup_dinsert_self]

theorem tagStep_address_presence {F : Type} (st st' : TState F) (t : Tag)
    (ht : t.k ≠ str "address")
    (hinv : st.addr.isEmpty = false → (dlookup st.node (str "address")).isSome = true)
    (hok : tagStep st t = .ok st') :
    ((dlookup st'.node (str "address")).isSome =
      ((dlookup st.node (str "address")).isSome || addrQual t)) ∧
    (st'.addr.isEmpty = false → (dlookup st'.node (str "address")).isSome = true) := by
  unfold tagStep at hok
  by_cases hprob : hasProblem t.k = true
  · rw [if_pos hprob] at hok
    cases Except.ok.inj hok
    exact ⟨by simp [addrQual, hprob], hinv⟩
  · rw [if_neg hprob] at hok
    have hprob' : hasProblem t.k = false := Bool.eq_false_iff.mpr hprob
    have hcommon : ∀ st1 : TState F, st' = attachAddr st1 →
        st1.addr = st.addr →
        (dlookup st1.node (str "address")).isSome =
          (dlookup st.node (str "address")).isSome →
        addrQual t = false →
        ((dlookup st'.node (str "address")).isSome =
          ((dlookup st.node (str "address")).isSome || addrQual t)) ∧
        (st'.addr.isEmpty = false →
          (dlookup st'.node (str "address")).isSome = true) := by
      intro st1 hst' ha hp hq
      subst hst'
      rw [hq, Bool.or_false]
      constructor
      · rw [attach_presence, hp, ha]
        cases hae : st.addr.isEmpty with
        | false =>
          rw [hinv hae]
          rfl
        | true =>
          rw [Bool.not_true, Bool.or_false]
      · intro hne
        have hne1 : st1.addr.isEmpty = false := hne
        rw [ha] at hne1
        rw [attach_presence, hp, ha, hne1, hinv hne1]
        rfl
    by_cases hlc : matchLowerColon t.k = true
    · rw [if_pos hlc] at hok
      by_cases hpre : (str "addr").isPrefixOf t.k = true
      · rw [if_pos hpre] at hok
        cases hav : addrTagValue t st.addr with
        | error u =>
          rw [hav] at hok
          cases hok
        | ok addr' =>
          rw [hav] at hok
          have hst' := (Except.ok.inj hok).symm
          subst hst'
          have hq : addrQual t = true := by simp [addrQual, hprob', hlc, hpre]
          have hnode1 : (dlookup
              (match dlookup st.node (str "address") with
               | none => dinsert st.node (str "address") ((JVal.obj [] : JVal F))
               | some _ => st.node) (str "address")).isSome = true := by
            cases hda : dlookup st.node (str "address") with
            | none => simp [dlookup_dinsert_self]
            | some w => simp [hda]
          constructor
          · rw [attach_presence]
            rw [hq, Bool.or_true]
            rw [hnode1]
            rfl
          · intro hne
            rw [attach_presence, hnode1]
            rfl
      · rw [if_neg (by simp [hpre])] at hok
        have hst' := (Except.ok.inj hok).symm
        exact hcommon _ hst' rfl
          (congrArg Option.isSome (dlookup_dinsert_ne _ _ _ _ (Ne.symm ht)))
          (by simp [addrQual, Bool.eq_false_iff.mpr hpre])
    · rw [if_neg hlc] at hok
      have hlc' : matchLowerColon t.k = false := Bool.eq_false_iff.mpr hlc
      by_cases hcol : t.k.contains ':' = true
      · rw [if_pos hcol] at hok
        have hst' := (Except.ok.inj hok).symm
        exact hcommon st hst' rfl rfl (by simp [addrQual, hlc'])
      · rw [if_neg hcol] at hok
        have hst' := (Except.ok.inj hok).symm
        exact hcommon _ hst' rfl
          (congrArg Option.isSome (dlookup_dinsert_ne _ _ _ _ (Ne.symm ht)))
          (by simp [addrQual, hlc'])

theorem tagfold_address_presence {F : Type} :
    ∀ (ts : List Tag) (st st' : TState F),
      List.foldlM tagStep st ts = .ok st' →
      (∀ t ∈ ts, t.k ≠ str "address") →
      (st.addr.isEmpty = false → (dlookup st.node (str "address")).isSome = true) →
      (dlookup st'.node (str "address")).isSome =
        ((dlookup st.node (str "address")).isSome || ts.any addrQual) := by
  intro ts
  induction ts with
  | nil =>
    intro st st' h _ _
    cases Except.ok.inj h
    simp
  | cons t ts ih =>
    intro st st' h ht hinv
    have hbind : (tagStep st t >>= fun b => List.foldlM tagStep b ts) = .ok st' := h
    cases hs : tagStep st t with
    | error u =>
      rw [hs] at hbind
      cases hbind
    | ok st1 =>
      rw [hs] at hbind
      obtain ⟨hp1, hi1⟩ := tagStep_address_presence st st1 t
        (ht t (List.mem_cons_self _ _)) hinv hs
      have h2 := ih st1 st' hbind (fun x hx => ht x (List.mem_cons_of_mem _ hx)) hi1
      rw [h2, hp1, List.any_cons, Bool.or_assoc]

/-- C4 counterexample: a node whose only tag is the deny-listed street value
`"Brunnenweg"` — the tag contributes nothing to `address`, yet the shaped
document carries an `address` field holding the *empty* sub-document. -/
theorem c4_counterexample :
    shape_element decParse elemDenied =
      .ok (some [(str "type", JVal.s (str "node")), (str "address", JVal.obj [])]) :=
  rfl

/-- C4 (amended): for an element without attributes or tag keys literally
named `address`, the shaped document carries an `address` field iff at least
one nested tag *reaches the addr-prefixed branch* (non-problem, `lower_colon`,
key beginning with `addr`) — even when no such tag contributes a sub-field, in
which case `address` is the empty sub-document (see the counterexample). -/
theorem c4_address_presence {F : Type} (parse : List Char → Option F)
    (e : XElem) (doc : Doc F)
    (ha : ∀ a ∈ e.attrib, str "address" ≠ a.1)
    (ht : ∀ t ∈ e.tags, t.k ≠ str "address")
    (h : shape_element parse e = .ok (some doc)) :
    (dlookup doc (str "address")).isSome = e.tags.any addrQual := by
  unfold shape_element at h
  by_cases he : e.tag = str "node" ∨ e.tag = str "way"
  · rw [if_pos he] at h
    cases h1 : e.attrib.foldlM (attrStep parse) [(str "type", JVal.s e.tag)] with
    | error u =>
      rw [h1] at h
      cases h
    | ok node1 =>
      rw [h1] at h
      have hb1 : (List.foldlM tagStep { node := node1, addr := [] } e.tags >>=
          fun st => (List.foldlM ndStep st.node e.nds >>=
            fun node3 => pure (some node3))) = .ok (some doc) := h
      cases h2 : List.foldlM tagStep { node := node1, addr := [] } e.tags with
      | error u =>
        rw [h2] at hb1
        cases hb1
      | ok st =>
        rw [h2] at hb1
        have hb2 : (List.foldlM ndStep st.node e.nds >>=
            fun node3 => pure (some node3)) = .ok (some doc) := hb1
        cases h3 : List.foldlM ndStep st.node e.nds with
        | error u =>
          rw [h3] at hb2
          cases hb2
        | ok node3 =>
          rw [h3] at hb2
          have hdoc : node3 = doc := by
            have := Except.ok.inj hb2
            exact Option.some.inj this
          subst hdoc
          have hn1 : dlookup node1 (str "address") = none := by
            rw [attrfold_preserves parse (str "address") (by decide) (by decide)
              e.attrib _ node1 h1 ha]
            rfl
          have hst := tagfold_address_presence e.tags
            { node := node1, addr := [] } st h2 ht
            (by intro hf; cases hf)
          rw [ndfold_preserves (str "address") (by decide) e.nds st.node node3 h3]
          rw [hst]
          simp only [hn1, Option.isSome_none, Bool.false_or]
  · rw [if_neg he] at h
    cases Except.ok.inj h

/-- C4 witness: the amended theorem applied to the deny-listed-only element;
both sides evaluate to `true` — the `address` key is present although nothing
contributed to it. -/
theorem c4_witness :
    (dlookup [(str "type", (JVal.s (str "node") : JVal Nat)),
              (str "address", JVal.obj [])] (str "address")).isSome =
      elemDenied.tags.any addrQual :=
  c4_address_presence decParse elemDenied
    [(str "type", JVal.s (str "node")), (str "address", JVal.obj [])]
    (by decide) (by decide) rfl

/-! ## C2 — the `pos` field.

Lines 366-372 initialise `node['pos'] = [None, None]` as soon as *either*
coordinate attribute is seen and then overwrite one slot, so an element
carrying only `lat` (or only `lon`) gets a `pos` whose other component is
`None` — `pos` is *not* restricted to elements carrying both attributes. -/

/-- The value stored in a `pos` slot: a parsed number or Python `None`. -/
def jOpt {F : Type} : Option F → JVal F
  | none => .null
  | some v => .f v

/-- The `pos` entry determined by the coordinate slots seen so far: absent
until one of `lat`/`lon` appears. -/
def mkPos {F : Type} : Option F → Option F → Option (JVal F)
  | none, none => none
  | a, b => some (.pair (jOpt a) (jOpt b))

/-- The value of one coordinate slot after scanning the attribute list: the
parse of the last attribute named `key`, else the initial slot value. -/
def posAcc {F : Type} (parse : List Char → Option F) (key : List Char)
    (attrs : List (List Char × List Char)) (init : Option F) : Option F :=
  attrs.foldl (fun acc x => if x.1 = key then parse x.2 else acc) init

theorem mkPos_eq_none {F : Type} (a b : Option F) :
    mkPos a b = none ↔ (a = none ∧ b = none) := by
  cases a <;> cases b <;> simp [mkPos]

theorem forall_cons_of_head {α : Type} (x : α) (l : List α) (P : α → Prop) (hx : P x) :
    (∀ y ∈ x :: l, P y) ↔ (∀ y ∈ l, P y) := by
  rw [List.forall_mem_cons]
  exact and_iff_right hx

theorem dlookup_none_iff {α : Type} (m : List (List Char × α)) (k : List Char) :
    dlookup m k = none ↔ ∀ p ∈ m, p.1 ≠ k := by
  induction m with
  | nil =>
    constructor
    · intro _ p hp
      cases hp
    · intro _
      rfl
  | cons p rest ih =>
    have hdcons : dlookup (p :: rest) k =
        if p.1 = k then some p.2 else dlookup rest k := rfl
    by_cases hp : p.1 = k
    · rw [hdcons, if_pos hp]
      constructor
      · intro h
        cases h
      · intro hall
        exact absurd hp (hall p (List.mem_cons_self _ _))
    · rw [hdcons, if_neg hp, ih]
      exact (forall_cons_of_head p rest (fun y => y.1 ≠ k) hp).symm

theorem posAcc_no_key {F : Type} (parse : List Char → Option F) (key : List Char) :
    ∀ (attrs : List (List Char × List Char)) (init : Option F),
      (∀ x ∈ attrs, x.1 ≠ key) → posAcc parse key attrs init = init := by
  intro attrs
  induction attrs with
  | nil => intro init _; rfl
  | cons x attrs ih =>
    intro init hall
    have hx : x.1 ≠ key := hall x (List.mem_cons_self _ _)
    simp only [posAcc, List.foldl_cons, if_neg hx]
    exact ih init (fun y hy => hall y (List.mem_cons_of_mem _ hy))

theorem posAcc_nodup {F : Type} (parse : List Char → Option F) (key : List Char) :
    ∀ attrs : List (List Char × List Char), (attrs.map Prod.fst).Nodup →
      posAcc parse key attrs none = (dlookup attrs key).bind parse := by
  intro attrs
  induction attrs with
  | nil => intro _; rfl
  | cons x attrs ih =>
    intro hnd
    obtain ⟨hnotin, htail⟩ := List.nodup_cons.mp hnd
    have hdcons : dlookup (x :: attrs) key =
        if x.1 = key then some x.2 else dlookup attrs key := rfl
    by_cases hx : x.1 = key
    · rw [hdcons, if_pos hx]
      have hrest : ∀ y ∈ attrs, y.1 ≠ key := by
        intro y hy hk
        have hmem : y.1 ∈ attrs.map Prod.fst := List.mem_map_of_mem Prod.fst hy
        rw [hk, ← hx] at hmem
        exact hnotin hmem
      have hstep : posAcc parse key (x :: attrs) none =
          posAcc parse key attrs (parse x.2) := by
        simp only [posAcc, List.foldl_cons, if_pos hx]
      rw [hstep, posAcc_no_key parse key attrs (parse x.2) hrest]
      rfl
    · rw [hdcons, if_neg hx]
      have hstep : posAcc parse key (x :: attrs) none = posAcc parse key attrs none := by
        simp only [posAcc, List.foldl_cons, if_neg hx]
      rw [hstep]
      exact ih htail

theorem attrStep_created {F : Type} (parse : List Char → Option F)
    (node node1 : Doc F) (x : List Char × List Char) (hc : x.1 ∈ CREATED)
    (hs : attrStep parse node x = .ok node1) (k : List Char) (hk : k ≠ str "created") :
    dlookup node1 k = dlookup node k := by
  unfold attrStep at hs
  rw [if_pos hc] at hs
  cases hd : dlookup node (str "created") with
  | none =>
    rw [hd] at hs
    cases Except.ok.inj hs
    exact dlookup_dinsert_ne _ _ _ _ hk
  | some w =>
    rw [hd] at hs
    cases w with
    | obj m =>
      cases Except.ok.inj hs
      exact dlookup_dinsert_ne _ _ _ _ hk
    | s v => cases hs
    | f v => cases hs
    | null => cases hs
    | pair y z => cases hs
    | arr vs => cases hs

theorem attrfold_pos {F : Type} (parse : List Char → Option F) :
    ∀ (attrs : List (List Char × List Char)) (node node' : Doc F) (a b : Option F),
      List.foldlM (attrStep parse) node attrs = .ok node' →
      (∀ x ∈ attrs, x.1 ≠ str "pos") →
      dlookup node (str "pos") = mkPos a b →
      dlookup node' (str "pos") =
          mkPos (posAcc parse (str "lat") attrs a) (posAcc parse (str "lon") attrs b) ∧
      (posAcc parse (str "lat") attrs a = none ↔
        (a = none ∧ ∀ x ∈ attrs, x.1 ≠ str "lat")) ∧
      (posAcc parse (str "lon") attrs b = none ↔
        (b = none ∧ ∀ x ∈ attrs, x.1 ≠ str "lon")) := by
  intro attrs
  induction attrs with
  | nil =>
    intro node node' a b h _ hpos
    cases Except.ok.inj h
    refine ⟨hpos, ?_, ?_⟩ <;> simp [posAcc]
  | cons x attrs ih =>
    intro node node' a b h hnp hpos
    have hxp : x.1 ≠ str "pos" := hnp x (List.mem_cons_self _ _)
    have hnp' : ∀ y ∈ attrs, y.1 ≠ str "pos" :=
      fun y hy => hnp y (List.mem_cons_of_mem _ hy)
    cases hs : attrStep parse node x with
    | error u =>
      rw [show List.foldlM (attrStep parse) node (x :: attrs) =
        (attrStep parse node x >>= fun b => List.foldlM (attrStep parse) b attrs)
        from rfl, hs] at h
      cases h
    | ok node1 =>
      rw [show List.foldlM (attrStep parse) node (x :: attrs) =
        (attrStep parse node x >>= fun b => List.foldlM (attrStep parse) b attrs)
        from rfl, hs] at h
      have hb1 : List.foldlM (attrStep parse) node1 attrs = .ok node' := h
      by_cases hc : x.1 ∈ CREATED
      · have hxlat : x.1 ≠ str "lat" := by
          intro hh
          rw [hh] at hc
          exact absurd hc (by decide)
        have hxlon : x.1 ≠ str "lon" := by
          intro hh
          rw [hh] at hc
          exact absurd hc (by decide)
        have hpres : dlookup node1 (str "pos") = mkPos a b := by
          rw [attrStep_created parse node node1 x hc hs (str "pos") (by decide)]
          exact hpos
        obtain ⟨g1, g2, g3⟩ := ih node1 node' a b hb1 hnp' hpres
        refine ⟨?_, ?_, ?_⟩
        · simpa only [posAcc, List.foldl_cons, if_neg hxlat, if_neg hxlon] using g1
        · simp only [posAcc, List.foldl_cons, if_neg hxlat]
          rw [forall_cons_of_head x attrs (fun y => y.1 ≠ str "lat") hxlat]
          exact g2
        · simp only [posAcc, List.foldl_cons, if_neg hxlon]
          rw [forall_cons_of_head x attrs (fun y => y.1 ≠ str "lon") hxlon]
          exact g3
      · unfold attrStep at hs
        rw [if_neg hc] at hs
        by_cases hll : x.1 = str "lat" ∨ x.1 = str "lon"
        · rw [if_pos hll] at hs
          have hmatch : (match dlookup node (str "pos") with
              | none => some ((JVal.null : JVal F), (JVal.null : JVal F))
              | some (.pair y z) => some (y, z)
              | some _ => none) = some (jOpt a, jOpt b) := by
            rw [hpos]
            cases a <;> cases b <;> rfl
          rw [hmatch] at hs
          cases hv : parse x.2 with
          | none =>
            rw [hv] at hs
            cases hs
          | some v =>
            rw [hv] at hs
            cases Except.ok.inj hs
            rcases hll with hlat | hlon
            · have hxlon : x.1 ≠ str "lon" := by
                rw [hlat]
                decide
              have hnew : dlookup
                  (dinsert node (str "pos")
                    (if x.1 = str "lat" then .pair (.f v) (jOpt b)
                     else .pair (jOpt a) (.f v))) (str "pos") =
                  mkPos (some v) b := by
                rw [dlookup_dinsert_self, if_pos hlat]
                cases b <;> rfl
              obtain ⟨g1, g2, g3⟩ := ih _ node' (some v) b hb1 hnp' hnew
              refine ⟨?_, ?_, ?_⟩
              · simpa only [posAcc, List.foldl_cons, if_pos hlat, if_neg hxlon, hv] using g1
              · simp only [posAcc, List.foldl_cons, if_pos hlat, hv]
                constructor
                · intro hz
                  exact absurd (g2.mp hz).1 (by simp)
                · rintro ⟨_, hall⟩
                  exact absurd hlat (hall x (List.mem_cons_self _ _))
              · simp only [posAcc, List.foldl_cons, if_neg hxlon]
                rw [forall_cons_of_head x attrs (fun y => y.1 ≠ str "lon") hxlon]
                exact g3
            · have hxlat : x.1 ≠ str "lat" := by
                rw [hlon]
                decide
              have hnlat : ¬(x.1 = str "lat") := hxlat
              have hnew : dlookup
                  (dinsert node (str "pos")
                    (if x.1 = str "lat" then .pair (.f v) (jOpt b)
                     else .pair (jOpt a) (.f v))) (str "pos") =
                  mkPos a (some v) := by
                rw [dlookup_dinsert_self, if_neg hnlat]
                cases a <;> rfl
              obtain ⟨g1, g2, g3⟩ := ih _ node' a (some v) hb1 hnp' hnew
              refine ⟨?_, ?_, ?_⟩
              · simpa only [posAcc, List.foldl_cons, if_pos hlon, if_neg hxlat, hv] using g1
              · simp only [posAcc, List.foldl_cons, if_neg hxlat]
                rw [forall_cons_of_head x attrs (fun y => y.1 ≠ str "lat") hxlat]
                exact g2
              · simp only [posAcc, List.foldl_cons, if_pos hlon, hv]
                constructor
                · intro hz
                  exact absurd (g3.mp hz).1 (by simp)
                · rintro ⟨_, hall⟩
                  exact absurd hlon (hall x (List.mem_cons_self _ _))
        · rw [if_neg hll] at hs
          cases Except.ok.inj hs
          have hxlat : x.1 ≠ str "lat" := fun hh => hll (Or.inl hh)
          have hxlon : x.1 ≠ str "lon" := fun hh => hll (Or.inr hh)
          have hpres : dlookup (dinsert node x.1 ((JVal.s x.2 : JVal F))) (str "pos") =
              mkPos a b := by
            rw [dlookup_dinsert_ne _ _ _ _ (Ne.symm hxp)]
            exact hpos
          obtain ⟨g1, g2, g3⟩ := ih _ node' a b hb1 hnp' hpres
          refine ⟨?_, ?_, ?_⟩
          · simpa only [posAcc, List.foldl_cons, if_neg hxlat, if_neg hxlon] using g1
          · simp only [posAcc, List.foldl_cons, if_neg hxlat]
            rw [forall_cons_of_head x attrs (fun y => y.1 ≠ str "lat") hxlat]
            exact g2
          · simp only [posAcc, List.foldl_cons, if_neg hxlon]
            rw [forall_cons_of_head x attrs (fun y => y.1 ≠ str "lon") hxlon]
            exact g3

theorem attach_preserves {F : Type} (st1 : TState F) (k : List Char)
    (hk : k ≠ str "address") :
    dlookup (attachAddr st1).node k = dlookup st1.node k := by
  show dlookup (if st1.addr.isEmpty then st1.node
      else dinsert st1.node (str "address") (.obj st1.addr)) k = dlookup st1.node k
  by_cases hae : st1.addr.isEmpty
  · rw [if_pos hae]
  · rw [if_neg hae]
    exact dlookup_dinsert_ne _ _ _ _ hk

theorem tagStep_preserves {F : Type} (st st' : TState F) (t : Tag) (k : List Char)
    (hk : k ≠ str "address") (hkt : k ≠ t.k) (hok : tagStep st t = .ok st') :
    dlookup st'.node k = dlookup st.node k := by
  unfold tagStep at hok
  by_cases hprob : hasProblem t.k = true
  · rw [if_pos hprob] at hok
    cases Except.ok.inj hok
    rfl
  · rw [if_neg hprob] at hok
    by_cases hlc : matchLowerColon t.k = true
    · rw [if_pos hlc] at hok
      by_cases hpre : (str "addr").isPrefixOf t.k = true
      · rw [if_pos hpre] at hok
        cases hav : addrTagValue t st.addr with
        | error u =>
          rw [hav] at hok
          cases hok
        | ok addr' =>
          rw [hav] at hok
          cases Except.ok.inj hok
          rw [attach_preserves _ _ hk]
          show dlookup (match dlookup st.node (str "address") with
              | none => dinsert st.node (str "address") (JVal.obj [])
              | some _ => st.node) k = dlookup st.node k
          cases hda : dlookup st.node (str "address") with
          | none => exact dlookup_dinsert_ne _ _ _ _ hk
          | some w => rfl
      · rw [if_neg hpre] at hok
        cases Except.ok.inj hok
        rw [attach_preserves _ _ hk]
        exact dlookup_dinsert_ne _ _ _ _ hkt
    · rw [if_neg hlc] at hok
      by_cases hcol : t.k.contains ':' = true
      · rw [if_pos hcol] at hok
        cases Except.ok.inj hok
        rw [attach_preserves _ _ hk]
      · rw [if_neg hcol] at hok
        cases Except.ok.inj hok
        rw [attach_preserves _ _ hk]
        exact dlookup_dinsert_ne _ _ _ _ hkt

theorem tagfold_preserves {F : Type} (k : List Char) (hk : k ≠ str "address") :
    ∀ (ts : List Tag) (st st' : TState F),
      List.foldlM tagStep st ts = .ok st' →
      (∀ t ∈ ts, k ≠ t.k) →
      dlookup st'.node k = dlookup st.node k := by
  intro ts
  induction ts with
  | nil =>
    intro st st' h _
    cases Except.ok.inj h
    rfl
  | cons t ts ih =>
    intro st st' h ht
    have hbind : (tagStep st t >>= fun b => List.foldlM tagStep b ts) = .ok st' := h
    cases hs : tagStep st t with
    | error u =>
      rw [hs] at hbind
      cases hbind
    | ok st1 =>
      rw [hs] at hbind
      rw [ih st1 st' hbind (fun x hx => ht x (List.mem_cons_of_mem _ hx)),
        tagStep_preserves st st1 t k hk (ht t (List.mem_cons_self _ _)) hs]

/-- C2 counterexample: a node carrying only a `lat` attribute is shaped with a
`pos` field present — `[37, null]`, the second component Python `None`, not a
number — although `lon` is absent. -/
theorem c2_counterexample :
    shape_element decParse elemLatOnly =
      .ok (some [(str "type", JVal.s (str "node")),
                 (str "pos", JVal.pair (JVal.f 37) JVal.null)]) ∧
    dlookup elemLatOnly.attrib (str "lon") = none :=
  ⟨rfl, rfl⟩

/-- C2 (amended): for a node/way element with distinct attribute keys, none of
them `pos` and no nested tag keyed `pos`, the shaped document's `pos` field is
present iff *at least one* of `lat`/`lon` is present; and when both are
present it is the two-component pair of their parsed values, latitude first.
(When only one is present, the other component is `null` — see the
counterexample.) -/
theorem c2_pos_field {F : Type} (parse : List Char → Option F) (e : XElem) (doc : Doc F)
    (hnd : (e.attrib.map Prod.fst).Nodup)
    (hp1 : ∀ x ∈ e.attrib, x.1 ≠ str "pos")
    (hp2 : ∀ t ∈ e.tags, t.k ≠ str "pos")
    (h : shape_element parse e = .ok (some doc)) :
    (dlookup doc (str "pos") = none ↔
      (dlookup e.attrib (str "lat") = none ∧ dlookup e.attrib (str "lon") = none)) ∧
    (∀ lav lov, dlookup e.attrib (str "lat") = some lav →
      dlookup e.attrib (str "lon") = some lov →
      ∃ la lo, parse lav = some la ∧ parse lov = some lo ∧
        dlookup doc (str "pos") = some (.pair (.f la) (.f lo))) := by
  unfold shape_element at h
  by_cases he : e.tag = str "node" ∨ e.tag = str "way"
  · rw [if_pos he] at h
    cases h1 : e.attrib.foldlM (attrStep parse) [(str "type", JVal.s e.tag)] with
    | error u =>
      rw [h1] at h
      cases h
    | ok node1 =>
      rw [h1] at h
      have hb1 : (List.foldlM tagStep { node := node1, addr := [] } e.tags >>=
          fun st => (List.foldlM ndStep st.node e.nds >>=
            fun node3 => pure (some node3))) = .ok (some doc) := h
      cases h2 : List.foldlM tagStep { node := node1, addr := [] } e.tags with
      | error u =>
        rw [h2] at hb1
        cases hb1
      | ok st =>
        rw [h2] at hb1
        have hb2 : (List.foldlM ndStep st.node e.nds >>=
            fun node3 => pure (some node3)) = .ok (some doc) := hb1
        cases h3 : List.foldlM ndStep st.node e.nds with
        | error u =>
          rw [h3] at hb2
          cases hb2
        | ok node3 =>
          rw [h3] at hb2
          have hdoc : node3 = doc := Option.some.inj (Except.ok.inj hb2)
          subst hdoc
          obtain ⟨g1, g2, g3⟩ := attrfold_pos parse e.attrib
            [(str "type", JVal.s e.tag)] node1 none none h1 hp1 rfl
          have hchain : dlookup node3 (str "pos") = dlookup node1 (str "pos") := by
            rw [ndfold_preserves (str "pos") (by decide) e.nds st.node node3 h3,
              tagfold_preserves (str "pos") (by decide) e.tags
                { node := node1, addr := [] } st h2 (fun t ht => Ne.symm (hp2 t ht))]
          have hAiff : (posAcc parse (str "lat") e.attrib none = none) ↔
              dlookup e.attrib (str "lat") = none := by
            rw [g2, dlookup_none_iff]
            simp
          have hBiff : (posAcc parse (str "lon") e.attrib none = none) ↔
              dlookup e.attrib (str "lon") = none := by
            rw [g3, dlookup_none_iff]
            simp
          constructor
          · rw [hchain, g1, mkPos_eq_none]
            exact and_congr hAiff hBiff
          · intro lav lov hla hlo
            have hAeq : posAcc parse (str "lat") e.attrib none = parse lav := by
              rw [posAcc_nodup parse (str "lat") e.attrib hnd, hla]
              rfl
            have hBeq : posAcc parse (str "lon") e.attrib none = parse lov := by
              rw [posAcc_nodup parse (str "lon") e.attrib hnd, hlo]
              rfl
            cases hpl : parse lav with
            | none =>
              exfalso
              have : dlookup e.attrib (str "lat") = none :=
                hAiff.mp (by rw [hAeq, hpl])
              rw [hla] at this
              cases this
            | some la =>
              cases hpo : parse lov with
              | none =>
                exfalso
                have : dlookup e.attrib (str "lon") = none :=
                  hBiff.mp (by rw [hBeq, hpo])
                rw [hlo] at this
                cases this
              | some lo =>
                refine ⟨la, lo, rfl, rfl, ?_⟩
                rw [hchain, g1, hAeq, hBeq, hpl, hpo]
                rfl
  · rw [if_neg he] at h
    cases Except.ok.inj h

/-- C2 witness: the amended theorem applied to a node carrying both
coordinates; both sides of the presence equivalence are false. -/
theorem c2_witness :
    (dlookup [(str "type", (JVal.s (str "node") : JVal Nat)),
              (str "pos", JVal.pair (JVal.f 37) (JVal.f 121))] (str "pos") = none ↔
      (dlookup elemLatLon.attrib (str "lat") = none ∧
       dlookup elemLatLon.attrib (str "lon") = none)) :=
  (c2_pos_field decParse elemLatLon
    [(str "type", JVal.s (str "node")), (str "pos", JVal.pair (JVal.f 37) (JVal.f 121))]
    (by decide) (by decide) (by decide) rfl).1

/-! ## C9 — idempotence of street-type normalization.

When `update_name` with the street-type tables succeeds, every replacement it
can perform ends the string in a token of `expected_names` (each live mapping
value's trailing word — `Avenue`, `Street`, `Boulevard`, … — is expected), so
a second application finds an expected trailing token and returns its input
unchanged. -/

theorem takeWhile_append_all {α : Type} (p : α → Bool) (l₁ l₂ : List α)
    (h : ∀ a ∈ l₁, p a = true) :
    (l₁ ++ l₂).takeWhile p = l₁ ++ l₂.takeWhile p := by
  induction l₁ with
  | nil => rfl
  | cons a l₁ ih =>
    rw [List.cons_append, List.takeWhile_cons, if_pos (h a (List.mem_cons_self _ _)),
      ih (fun x hx => h x (List.mem_cons_of_mem _ hx)), List.cons_append]

theorem dropWhile_append_all {α : Type} (p : α → Bool) (l₁ l₂ : List α)
    (h : ∀ a ∈ l₁, p a = true) :
    (l₁ ++ l₂).dropWhile p = l₂.dropWhile p := by
  induction l₁ with
  | nil => rfl
  | cons a l₁ ih =>
    rw [List.cons_append, List.dropWhile_cons, if_pos (h a (List.mem_cons_self _ _)),
      ih (fun x hx => h x (List.mem_cons_of_mem _ hx))]

theorem dropWhile_head_false {α : Type} (p : α → Bool) :
    ∀ (l : List α) (c : α) (R : List α), l.dropWhile p = c :: R → p c = false := by
  intro l
  induction l with
  | nil =>
    intro c R h
    cases h
  | cons a l ih =>
    intro c R h
    rw [List.dropWhile_cons] at h
    by_cases ha : p a = true
    · rw [if_pos ha] at h
      exact ih c R h
    · rw [if_neg ha] at h
      cases h
      exact Bool.eq_false_iff.mpr ha

theorem mem_of_mem_takeWhile {α : Type} (p : α → Bool) :
    ∀ (l : List α) (a : α), a ∈ l.takeWhile p → a ∈ l := by
  intro l
  induction l with
  | nil =>
    intro a h
    cases h
  | cons x l ih =>
    intro a h
    rw [List.takeWhile_cons] at h
    by_cases hx : p x = true
    · rw [if_pos hx] at h
      rcases List.mem_cons.mp h with h | h
      · exact h ▸ List.mem_cons_self _ _
      · exact List.mem_cons_of_mem _ (ih a h)
    · rw [if_neg hx] at h
      cases h

theorem takeWhile_dropWhile_nil {α : Type} (p : α → Bool) :
    ∀ l : List α, (l.dropWhile p).takeWhile p = [] := by
  intro l
  induction l with
  | nil => rfl
  | cons a l ih =>
    rw [List.dropWhile_cons]
    by_cases ha : p a = true
    · rw [if_pos ha]
      exact ih
    · rw [if_neg ha, List.takeWhile_cons, if_neg ha]

theorem trailingSplit_concat (s : List Char) :
    (trailingSplit s).1 ++ (trailingSplit s).2 = s := by
  show (s.reverse.dropWhile nonSpace).reverse ++ (s.reverse.takeWhile nonSpace).reverse = s
  rw [← List.reverse_append, List.takeWhile_append_dropWhile, List.reverse_reverse]

theorem trailingSplit_snd_nonSpace (s : List Char) :
    ∀ c ∈ (trailingSplit s).2, nonSpace c = true := by
  intro c hc
  have hc' : c ∈ s.reverse.takeWhile nonSpace := List.mem_reverse.mp hc
  exact List.mem_takeWhile_imp hc'

theorem trailingSplit_fst_fact (s : List Char) :
    ((trailingSplit s).1).reverse.takeWhile nonSpace = [] := by
  show ((s.reverse.dropWhile nonSpace).reverse).reverse.takeWhile nonSpace = []
  rw [List.reverse_reverse]
  exact takeWhile_dropWhile_nil nonSpace s.reverse

theorem nonSpace_ne_newline {c : Char} (h : nonSpace c = true) : c ≠ '\n' := by
  intro hc
  rw [hc] at h
  cases h

theorem stripNL_concat_newline (x : List Char) : stripNL (x ++ ['\n']) = (x, true) := by
  unfold stripNL
  rw [show (x ++ ['\n']).reverse = '\n' :: x.reverse by
    rw [List.reverse_append]
    rfl]
  show (if ('\n' : Char) = '\n' then ((x.reverse).reverse, true)
    else (x ++ ['\n'], false)) = (x, true)
  rw [if_pos rfl, List.reverse_reverse]

theorem stripNL_of_last_nonspace (x u : List Char) (hune : u ≠ [])
    (hu : ∀ c ∈ u, nonSpace c = true) : stripNL (x ++ u) = (x ++ u, false) := by
  cases hur : u.reverse with
  | nil => exact absurd (List.reverse_eq_nil_iff.mp hur) hune
  | cons c R =>
    have hc : c ∈ u := by
      rw [← List.mem_reverse, hur]
      exact List.mem_cons_self _ _
    unfold stripNL
    rw [show (x ++ u).reverse = c :: (R ++ x.reverse) by
      rw [List.reverse_append, hur, List.cons_append]]
    show (if c = '\n' then ((R ++ x.reverse).reverse, true)
      else (x ++ u, false)) = (x ++ u, false)
    rw [if_neg (nonSpace_ne_newline (hu c hc))]

/-- A replacement value whose trailing token is an expected name beginning
with a word character. -/
def repGood (rep : List Char) : Bool :=
  !(trailingSplit rep).2.isEmpty &&
    isPyWord ((trailingSplit rep).2.headD 'x') &&
    expected_names.contains (trailingSplit rep).2

/-- Every entry of `mapping_street_type` either has its key already in
`expected_names` (so `update_name` never fires it) or a replacement whose
trailing token is expected. -/
theorem mst_values_good :
    mapping_street_type.all
      (fun p => expected_names.contains p.1 || repGood p.2) = true := by
  decide

theorem repGood_unpack {rep : List Char} (h : repGood rep = true) :
    (trailingSplit rep).2 ≠ [] ∧
    isPyWord ((trailingSplit rep).2.headD 'x') = true ∧
    expected_names.contains (trailingSplit rep).2 = true := by
  unfold repGood at h
  obtain ⟨h12, h3⟩ := (Bool.and_eq_true _ _).mp h
  obtain ⟨h1, h2⟩ := (Bool.and_eq_true _ _).mp h12
  refine ⟨?_, h2, h3⟩
  intro hnil
  rw [hnil] at h1
  cases h1

/-- The leftmost `\b\S+\.?$` match in `p0 ++ tNW ++ w ++ u` is `u`, when `p0`
and `w` end at whitespace boundaries (or are empty), `tNW` is a run of
non-word non-space characters, and `u` is a nonempty non-space run starting
with a word character.  This is exactly the shape of `text before a previous
match ++ replacement`. -/
theorem stMatch_second (p0 tNW w u : List Char)
    (hp0 : p0.reverse.takeWhile nonSpace = [])
    (ht : ∀ c ∈ tNW, nonSpace c = true ∧ nonWord c = true)
    (hw : w.reverse.takeWhile nonSpace = [])
    (hu : ∀ c ∈ u, nonSpace c = true)
    (hune : u ≠ [])
    (huh : isPyWord (u.headD 'x') = true) :
    (stMatchSplit (p0 ++ (tNW ++ (w ++ u)))).map Prod.snd = some u := by
  have humemSrev : ∀ c ∈ u.reverse, nonSpace c = true :=
    fun c hc => hu c (List.mem_reverse.mp hc)
  have htSrev : ∀ c ∈ tNW.reverse, nonSpace c = true :=
    fun c hc => (ht c (List.mem_reverse.mp hc)).1
  obtain ⟨uh, ut, huu⟩ : ∃ h t, u = h :: t := by
    cases hcase : u with
    | nil => exact absurd hcase hune
    | cons a l => exact ⟨a, l, rfl⟩
  have huhw : isPyWord uh = true := by
    rw [huu] at huh
    exact huh
  have hzrev : (p0 ++ (tNW ++ (w ++ u))).reverse =
      u.reverse ++ (w.reverse ++ (tNW.reverse ++ p0.reverse)) := by
    simp [List.reverse_append, List.append_assoc]
  have hdropNW : u.dropWhile nonWord = u := by
    rw [huu, List.dropWhile_cons, if_neg (by simp [nonWord, huhw])]
  cases hwr : w.reverse with
  | nil =>
    have htake : (p0 ++ (tNW ++ (w ++ u))).reverse.takeWhile nonSpace =
        u.reverse ++ tNW.reverse := by
      rw [hzrev, hwr]
      rw [takeWhile_append_all nonSpace _ _ humemSrev, List.nil_append,
        takeWhile_append_all nonSpace _ _ htSrev, hp0, List.append_nil]
    have hts2 : (trailingSplit (p0 ++ (tNW ++ (w ++ u)))).2 = tNW ++ u := by
      show ((p0 ++ (tNW ++ (w ++ u))).reverse.takeWhile nonSpace).reverse = tNW ++ u
      rw [htake, List.reverse_append, List.reverse_reverse, List.reverse_reverse]
    have hg : ((trailingSplit (p0 ++ (tNW ++ (w ++ u)))).2).dropWhile nonWord = u := by
      rw [hts2, dropWhile_append_all nonWord _ _ (fun c hc => (ht c hc).2), hdropNW]
    unfold stMatchSplit
    rw [hg, huu]
    simp
  | cons c R =>
    have hcfalse : nonSpace c = false := by
      rw [hwr, List.takeWhile_cons] at hw
      by_cases hcc : nonSpace c = true
      · rw [if_pos hcc] at hw
        cases hw
      · exact Bool.eq_false_iff.mpr hcc
    have htake : (p0 ++ (tNW ++ (w ++ u))).reverse.takeWhile nonSpace = u.reverse := by
      rw [hzrev, hwr]
      rw [takeWhile_append_all nonSpace _ _ humemSrev]
      rw [List.cons_append, List.takeWhile_cons,
        if_neg (by rw [hcfalse]; exact Bool.false_ne_true), List.append_nil]
    have hts2 : (trailingSplit (p0 ++ (tNW ++ (w ++ u)))).2 = u := by
      show ((p0 ++ (tNW ++ (w ++ u))).reverse.takeWhile nonSpace).reverse = u
      rw [htake, List.reverse_reverse]
    have hg : ((trailingSplit (p0 ++ (tNW ++ (w ++ u)))).2).dropWhile nonWord = u := by
      rw [hts2, hdropNW]
    unfold stMatchSplit
    rw [hg, huu]
    simp

theorem reSearch_stype (s : List Char) : reSearch .stype s = stSearch s := rfl

theorem reSub_stype (rep s : List Char) : reSub .stype rep s = stSub rep s := rfl

theorem update_name_nomatch (r : ReKind) (name' : List Char)
    (mapping : List (List Char × List Char)) (expected : List (List Char))
    (hs : reSearch r name' = none) :
    update_name name' mapping r expected = some name' := by
  unfold update_name
  rw [hs]

theorem update_name_expected (r : ReKind) (name' g' : List Char)
    (mapping : List (List Char × List Char)) (expected : List (List Char))
    (hs : reSearch r name' = some g') (hg : g' ∈ expected) :
    update_name name' mapping r expected = some name' := by
  unfold update_name
  rw [hs]
  show (if g' ∈ expected then some name'
    else match dlookup mapping g' with
      | none => none
      | some rep => some (reSub r rep name')) = some name'
  rw [if_pos hg]

/-- C9: street-type normalization is idempotent on its successful outputs —
when one application of `update_name` with the street-type tables succeeds,
applying it again to the result returns the result unchanged (every live
replacement leaves a trailing token in `expected_names`; unchanged results
are trivially fixed). -/
theorem c9_street_normalization_idempotent (name r : List Char)
    (h : update_name name mapping_street_type .stype expected_names = some r) :
    update_name r mapping_street_type .stype expected_names = some r := by
  unfold update_name at h
  rw [reSearch_stype] at h
  cases hs : stSearch name with
  | none =>
    rw [hs] at h
    cases Option.some.inj h
    exact update_name_nomatch .stype name mapping_street_type expected_names
      (by rw [reSearch_stype]; exact hs)
  | some g =>
    rw [hs] at h
    have h' : (if g ∈ expected_names then some name
        else match dlookup mapping_street_type g with
          | none => none
          | some rep => some (reSub .stype rep name)) = some r := h
    by_cases hg : g ∈ expected_names
    · rw [if_pos hg] at h'
      cases Option.some.inj h'
      exact update_name_expected .stype name g mapping_street_type expected_names
        (by rw [reSearch_stype]; exact hs) hg
    · rw [if_neg hg] at h'
      cases hm : dlookup mapping_street_type g with
      | none =>
        rw [hm] at h'
        cases h'
      | some rep =>
        rw [hm] at h'
        cases Option.some.inj h'
        -- the replacement fired: derive that its trailing token is expected
        have hmem : (g, rep) ∈ mapping_street_type := dlookup_mem hm
        have hor := List.all_eq_true.mp mst_values_good _ hmem
        have hgc : expected_names.contains g = false := by
          cases hcg : expected_names.contains g
          · rfl
          · exact absurd (List.mem_of_elem_eq_true hcg) hg
        rw [hgc, Bool.false_or] at hor
        obtain ⟨hune, huh, humem⟩ := repGood_unpack hor
        have huexp : (trailingSplit rep).2 ∈ expected_names :=
          List.mem_of_elem_eq_true humem
        have hwf : ((trailingSplit rep).1).reverse.takeWhile nonSpace = [] :=
          trailingSplit_fst_fact rep
        have huf : ∀ c ∈ (trailingSplit rep).2, nonSpace c = true :=
          trailingSplit_snd_nonSpace rep
        -- decompose the first match
        cases hsn : stripNL name with
        | mk s1 nl =>
          have hs' : (stMatchSplit s1).map Prod.snd = some g := by
            have hdef : stSearch name = (stMatchSplit (stripNL name).1).map Prod.snd := rfl
            rw [hdef, hsn] at hs
            exact hs
          cases hq : stMatchSplit s1 with
          | none =>
            rw [hq] at hs'
            cases hs'
          | some pg =>
            obtain ⟨pg1, pg2⟩ := pg
            rw [hq] at hs'
            have hq0 := hq
            unfold stMatchSplit at hq
            by_cases hie : ((trailingSplit s1).2.dropWhile nonWord).isEmpty = true
            · rw [if_pos hie] at hq
              cases hq
            · rw [if_neg hie] at hq
              have hpg := Option.some.inj hq
              have hpg1 : pg1 =
                  (trailingSplit s1).1 ++ (trailingSplit s1).2.takeWhile nonWord :=
                (congrArg Prod.fst hpg).symm
              have hp0f : ((trailingSplit s1).1).reverse.takeWhile nonSpace = [] :=
                trailingSplit_fst_fact s1
              have htf : ∀ c ∈ (trailingSplit s1).2.takeWhile nonWord,
                  nonSpace c = true ∧ nonWord c = true := by
                intro c hc
                exact ⟨trailingSplit_snd_nonSpace s1 c
                    (mem_of_mem_takeWhile nonWord _ c hc),
                  List.mem_takeWhile_imp hc⟩
              have hcore := stMatch_second (trailingSplit s1).1
                ((trailingSplit s1).2.takeWhile nonWord)
                (trailingSplit rep).1 (trailingSplit rep).2
                hp0f htf hwf huf hune huh
              rw [trailingSplit_concat rep] at hcore
              have hassoc : (pg1 ++ (trailingSplit rep).1) ++ (trailingSplit rep).2 =
                  pg1 ++ rep := by
                rw [List.append_assoc, trailingSplit_concat]
              have hsub : stSub rep name =
                  (pg1 ++ rep) ++ (if nl then ['\n'] else []) := by
                unfold stSub
                rw [hsn]
                show (match stMatchSplit s1 with
                  | none => name
                  | some (p, _) => p ++ rep ++ (if nl then ['\n'] else [])) =
                  (pg1 ++ rep) ++ (if nl then ['\n'] else [])
                rw [hq0]
              have hfin : stSearch ((pg1 ++ rep) ++ (if nl then ['\n'] else [])) =
                  some (trailingSplit rep).2 := by
                cases nl with
                | false =>
                  rw [show (if false then ['\n'] else ([] : List Char)) = [] from rfl,
                    List.append_nil]
                  unfold stSearch
                  rw [← hassoc, stripNL_of_last_nonspace _ _ hune huf]
                  show (stMatchSplit
                      ((pg1 ++ (trailingSplit rep).1) ++ (trailingSplit rep).2)).map
                      Prod.snd = some (trailingSplit rep).2
                  rw [hassoc, hpg1, List.append_assoc]
                  exact hcore
                | true =>
                  rw [show (if true then ['\n'] else ([] : List Char)) = ['\n'] from rfl]
                  unfold stSearch
                  rw [stripNL_concat_newline (pg1 ++ rep)]
                  show (stMatchSplit (pg1 ++ rep)).map Prod.snd =
                    some (trailingSplit rep).2
                  rw [hpg1, List.append_assoc]
                  exact hcore
              exact update_name_expected .stype (reSub .stype rep name)
                (trailingSplit rep).2 mapping_street_type expected_names
                (by rw [reSearch_stype, reSub_stype, hsub]; exact hfin) huexp

/-- C9 witness: the theorem applied at a street whose abbreviation is
rewritten; the second application leaves `"Main Street"` unchanged. -/
theorem c9_witness :
    update_name (str "Main Street") mapping_street_type .stype expected_names =
      some (str "Main Street") :=
  c9_street_normalization_idempotent (str "Main St") (str "Main Street") rfl

end OSM
